import Mathlib

/-!
Verification of the instruction-execution and approval-workflow engine of the
yuan repository (packages/orchestrator).  JavaScript strings are embedded as
`List Char`; regular-expression tests are hand-compiled to continuation-passing
matchers over the lowercased character list (all the source patterns carry the
`i` flag unless noted); JavaScript `Map`s become association lists whose key
uniqueness is an invariant; promises and timers of the approval gate become an
explicit settlement log and a set of armed timers driven by a step relation.
-/

set_option maxHeartbeats 1000000

namespace Yuan

/-! ## String utilities (JavaScript semantics over `List Char`) -/

/-- Whitespace as matched by the source's `\s` class and by `String.trim`
(ASCII part: space, tab, newline, carriage return, vertical tab, form feed). -/
def isWsChar (c : Char) : Bool :=
  c = ' ' || c = '\t' || c = '\n' || c = '\r' || c = '\x0b' || c = '\x0c'

/-- A character matched by the JavaScript regex `.` (anything but a line
terminator). -/
def jsDotChar (c : Char) : Bool :=
  !(c = '\n' || c = '\r' || c = Char.ofNat 0x2028 || c = Char.ofNat 0x2029)

/-- Word character for the `\b` boundary assertion: `[A-Za-z0-9_]`. -/
def isWordChar (c : Char) : Bool := c.isAlphanum || c = '_'

/-- Lowercasing used to realise the `i` regex flag. -/
def lowers (s : List Char) : List Char := s.map Char.toLower

/-- JavaScript `String.prototype.trim` (whitespace from both ends). -/
def jsTrim (s : List Char) : List Char :=
  ((s.dropWhile isWsChar).reverse.dropWhile isWsChar).reverse

/-- JavaScript `response.split('\n')`: always a non-empty list of segments. -/
def jsSplit : List Char → List (List Char)
  | [] => [[]]
  | c :: cs =>
    if c = '\n' then [] :: jsSplit cs
    else
      match jsSplit cs with
      | [] => [[c]]
      | l :: ls => (c :: l) :: ls

/-- Matcher continuation: consumes a suffix of the subject, succeeds or fails. -/
abbrev Mk := List Char → Bool

/-- Matcher for a literal word followed by continuation `k`. -/
def mLit (w : List Char) (k : Mk) (s : List Char) : Bool :=
  w.isPrefixOf s && k (s.drop w.length)

/-- Matcher for `\s*` followed by continuation `k` (with backtracking). -/
def mWsStar (k : Mk) : List Char → Bool
  | [] => k []
  | c :: t => k (c :: t) || (isWsChar c && mWsStar k t)

/-- Matcher for `\s+` followed by continuation `k`. -/
def mWsPlus (k : Mk) : List Char → Bool
  | [] => false
  | c :: t => isWsChar c && mWsStar k t

/-- Matcher for `.*` (JavaScript dot) followed by continuation `k`. -/
def mDotStar (k : Mk) : List Char → Bool
  | [] => k []
  | c :: t => k (c :: t) || (jsDotChar c && mDotStar k t)

/-- Matcher for the tail alternative `(?:\s|$)`. -/
def mEndOrWs : Mk
  | [] => true
  | c :: _ => isWsChar c

/-- Trivial continuation: the regex has been fully matched. -/
def mAny : Mk := fun _ => true

/-- Unanchored search: does `p` match starting at some position of `s`
(JavaScript `RegExp.prototype.test` scans every start position)? -/
def scanSfx (p : List Char → Bool) : List Char → Bool
  | [] => p []
  | c :: t => p (c :: t) || scanSfx p t

/-- Does `w` occur at the head of `s` with a word boundary on its right? -/
def wordAt (w : List Char) (s : List Char) : Bool :=
  w.isPrefixOf s &&
    (match s.drop w.length with
     | [] => true
     | c :: _ => !isWordChar c)

/-- Scan for `\bw\b`; `prevOk` records whether the previous character (if any)
was a non-word character, i.e. whether a boundary precedes this position. -/
def containsWordGo (w : List Char) (prevOk : Bool) : List Char → Bool
  | [] => prevOk && wordAt w []
  | c :: t => (prevOk && wordAt w (c :: t)) || containsWordGo w (!isWordChar c) t

/-- Test for the regex `\bw\b` on a lowercased subject. -/
def containsWord (w s : List Char) : Bool := containsWordGo w true s

/-- Case-sensitive substring occurrence (JavaScript `String.includes`). -/
def strContains (w s : List Char) : Bool := scanSfx (fun t => w.isPrefixOf t) s

/-- Case-insensitive prefix test against a lowercase pattern word. -/
def prefixCI (w : List Char) (s : List Char) : Bool :=
  w.isPrefixOf (lowers (s.take w.length))

/-- First position (left to right) at which the partial capture `f` succeeds:
JavaScript `String.prototype.match` returns the leftmost match. -/
def firstSome (f : List Char → Option (List Char)) : List Char → Option (List Char)
  | [] => f []
  | c :: t =>
    match f (c :: t) with
    | some r => some r
    | none => firstSome f t

/-! ## Sensitive-action detector

Embeds `ApprovalDetector` and `APPROVAL_PATTERNS` from
`packages/orchestrator/src/approval/gate.ts` (the deduplicating variant used
for the claims; the older `detector.ts` copy differs only in the deploy
patterns and in lacking deduplication). -/

/-- Category keys of `APPROVAL_PATTERNS`, in object-literal insertion order. -/
inductive Category where
  | git
  | github
  | npm
  | deploy
deriving DecidableEq

/-- Interface `DetectedApproval` of the source. -/
structure DetectedApproval where
  category : Category
  action : List Char
  command : List Char
  isSensitive : Bool
  details : List Char
deriving DecidableEq

/-- Pattern `git\s+push(?:\s|$)` (i flag). -/
def reGitPush (cmd : List Char) : Bool :=
  scanSfx (mLit "git".data (mWsPlus (mLit "push".data mEndOrWs))) (lowers cmd)

/-- Pattern `git\s+push\s+.*--force` (i flag). -/
def reGitPushForce (cmd : List Char) : Bool :=
  scanSfx (mLit "git".data (mWsPlus (mLit "push".data
    (mWsPlus (mDotStar (mLit "--force".data mAny)))))) (lowers cmd)

/-- Pattern `git\s+merge(?:\s|$)` (i flag). -/
def reGitMerge (cmd : List Char) : Bool :=
  scanSfx (mLit "git".data (mWsPlus (mLit "merge".data mEndOrWs))) (lowers cmd)

/-- Pattern `git\s+branch\s+-[dD].*origin` (i flag) (the class `[dD]` collapses to
`d` on the lowercased subject). -/
def reGitBranchDel (cmd : List Char) : Bool :=
  scanSfx (mLit "git".data (mWsPlus (mLit "branch".data
    (mWsPlus (mLit "-d".data (mDotStar (mLit "origin".data mAny))))))) (lowers cmd)

/-- Pattern `git\s+push\s+.*:.*(?:main|master)` (i flag). -/
def reGitPushMain (cmd : List Char) : Bool :=
  scanSfx (mLit "git".data (mWsPlus (mLit "push".data (mWsPlus (mDotStar
    (mLit ":".data (mDotStar (fun s =>
      mLit "main".data mAny s || mLit "master".data mAny s)))))))) (lowers cmd)

/-- Pattern `gh\s+pr\s+merge` (i flag). -/
def reGhPrMerge (cmd : List Char) : Bool :=
  scanSfx (mLit "gh".data (mWsPlus (mLit "pr".data
    (mWsPlus (mLit "merge".data mAny))))) (lowers cmd)

/-- Pattern `gh\s+pr\s+create` (i flag). -/
def reGhPrCreate (cmd : List Char) : Bool :=
  scanSfx (mLit "gh".data (mWsPlus (mLit "pr".data
    (mWsPlus (mLit "create".data mAny))))) (lowers cmd)

/-- Pattern `gh\s+release` (i flag). -/
def reGhRelease (cmd : List Char) : Bool :=
  scanSfx (mLit "gh".data (mWsPlus (mLit "release".data mAny))) (lowers cmd)

/-- Pattern `npm\s+publish` (i flag). -/
def reNpmPublish (cmd : List Char) : Bool :=
  scanSfx (mLit "npm".data (mWsPlus (mLit "publish".data mAny))) (lowers cmd)

/-- Pattern `yarn\s+publish` (i flag). -/
def reYarnPublish (cmd : List Char) : Bool :=
  scanSfx (mLit "yarn".data (mWsPlus (mLit "publish".data mAny))) (lowers cmd)

/-- Pattern `pnpm\s+publish` (i flag). -/
def rePnpmPublish (cmd : List Char) : Bool :=
  scanSfx (mLit "pnpm".data (mWsPlus (mLit "publish".data mAny))) (lowers cmd)

/-- Pattern `^deploy\s+` (i flag) (anchored at the start, hence no scan). -/
def reDeployCmd (cmd : List Char) : Bool :=
  mLit "deploy".data (mWsPlus mAny) (lowers cmd)

/-- Pattern `npm\s+run\s+deploy` (i flag). -/
def reNpmRunDeploy (cmd : List Char) : Bool :=
  scanSfx (mLit "npm".data (mWsPlus (mLit "run".data
    (mWsPlus (mLit "deploy".data mAny))))) (lowers cmd)

/-- Pattern `yarn\s+deploy` (i flag). -/
def reYarnDeploy (cmd : List Char) : Bool :=
  scanSfx (mLit "yarn".data (mWsPlus (mLit "deploy".data mAny))) (lowers cmd)

/-- Pattern `pnpm\s+deploy` (i flag). -/
def rePnpmDeploy (cmd : List Char) : Bool :=
  scanSfx (mLit "pnpm".data (mWsPlus (mLit "deploy".data mAny))) (lowers cmd)

/-- Pattern `\bshipit\b` (i flag). -/
def reShipit (cmd : List Char) : Bool :=
  containsWord "shipit".data (lowers cmd)

/-- Pattern `kubectl\s+apply` (i flag). -/
def reKubectlApply (cmd : List Char) : Bool :=
  scanSfx (mLit "kubectl".data (mWsPlus (mLit "apply".data mAny))) (lowers cmd)

/-- Pattern `docker\s+push` (i flag). -/
def reDockerPush (cmd : List Char) : Bool :=
  scanSfx (mLit "docker".data (mWsPlus (mLit "push".data mAny))) (lowers cmd)

/-- Pattern `terraform\s+apply` (i flag). -/
def reTerraformApply (cmd : List Char) : Bool :=
  scanSfx (mLit "terraform".data (mWsPlus (mLit "apply".data mAny))) (lowers cmd)

/-- Pattern `vercel\s+(?:deploy|--prod)` (i flag). -/
def reVercel (cmd : List Char) : Bool :=
  scanSfx (mLit "vercel".data (mWsPlus (fun s =>
    mLit "deploy".data mAny s || mLit "--prod".data mAny s))) (lowers cmd)

/-- Pattern `netlify\s+deploy` (i flag). -/
def reNetlifyDeploy (cmd : List Char) : Bool :=
  scanSfx (mLit "netlify".data (mWsPlus (mLit "deploy".data mAny))) (lowers cmd)

/-- Pattern `firebase\s+deploy` (i flag). -/
def reFirebaseDeploy (cmd : List Char) : Bool :=
  scanSfx (mLit "firebase".data (mWsPlus (mLit "deploy".data mAny))) (lowers cmd)

/-- Pattern `fly\s+deploy` (i flag). -/
def reFlyDeploy (cmd : List Char) : Bool :=
  scanSfx (mLit "fly".data (mWsPlus (mLit "deploy".data mAny))) (lowers cmd)

/-- Pattern `railway\s+up` (i flag). -/
def reRailwayUp (cmd : List Char) : Bool :=
  scanSfx (mLit "railway".data (mWsPlus (mLit "up".data mAny))) (lowers cmd)

/-- `APPROVAL_PATTERNS.git`, in order. -/
def gitPatterns : List (List Char → Bool) :=
  [reGitPush, reGitPushForce, reGitMerge, reGitBranchDel, reGitPushMain]

/-- `APPROVAL_PATTERNS.github`, in order. -/
def githubPatterns : List (List Char → Bool) :=
  [reGhPrMerge, reGhPrCreate, reGhRelease]

/-- `APPROVAL_PATTERNS.npm`, in order. -/
def npmPatterns : List (List Char → Bool) :=
  [reNpmPublish, reYarnPublish, rePnpmPublish]

/-- `APPROVAL_PATTERNS.deploy`, in order. -/
def deployPatterns : List (List Char → Bool) :=
  [reDeployCmd, reNpmRunDeploy, reYarnDeploy, rePnpmDeploy, reShipit,
   reKubectlApply, reDockerPush, reTerraformApply, reVercel,
   reNetlifyDeploy, reFirebaseDeploy, reFlyDeploy, reRailwayUp]

/-- Sub-pattern key `'push'` of the git action table:
`new RegExp('push','i').test(command)`. -/
def keyPush (cmd : List Char) : Bool :=
  scanSfx (mLit "push".data mAny) (lowers cmd)

/-- Sub-pattern key `'push.*--force'` of the git action table. -/
def keyPushForce (cmd : List Char) : Bool :=
  scanSfx (mLit "push".data (mDotStar (mLit "--force".data mAny))) (lowers cmd)

/-- Sub-pattern key `'merge'` of the git action table. -/
def keyMerge (cmd : List Char) : Bool :=
  scanSfx (mLit "merge".data mAny) (lowers cmd)

/-- Sub-pattern key `'branch.*-[dD]'` of the git action table. -/
def keyBranchDel (cmd : List Char) : Bool :=
  scanSfx (mLit "branch".data (mDotStar (mLit "-d".data mAny))) (lowers cmd)

/-- Sub-pattern key `'pr.*merge'` of the github action table. -/
def keyPrMerge (cmd : List Char) : Bool :=
  scanSfx (mLit "pr".data (mDotStar (mLit "merge".data mAny))) (lowers cmd)

/-- Sub-pattern key `'pr.*create'` of the github action table. -/
def keyPrCreate (cmd : List Char) : Bool :=
  scanSfx (mLit "pr".data (mDotStar (mLit "create".data mAny))) (lowers cmd)

/-- Sub-pattern key `'release'` of the github action table. -/
def keyRelease (cmd : List Char) : Bool :=
  scanSfx (mLit "release".data mAny) (lowers cmd)

/-- Sub-pattern key `'publish'` of the npm action table. -/
def keyPublish (cmd : List Char) : Bool :=
  scanSfx (mLit "publish".data mAny) (lowers cmd)

/-- Sub-pattern key `'deploy'` of the deploy action table. -/
def keyDeploy (cmd : List Char) : Bool :=
  scanSfx (mLit "deploy".data mAny) (lowers cmd)

/-- Sub-pattern key `'kubectl.*apply'` of the deploy action table. -/
def keyKubectlApply (cmd : List Char) : Bool :=
  scanSfx (mLit "kubectl".data (mDotStar (mLit "apply".data mAny))) (lowers cmd)

/-- Sub-pattern key `'docker.*push'` of the deploy action table. -/
def keyDockerPush (cmd : List Char) : Bool :=
  scanSfx (mLit "docker".data (mDotStar (mLit "push".data mAny))) (lowers cmd)

/-- Sub-pattern key `'terraform.*apply'` of the deploy action table. -/
def keyTerraformApply (cmd : List Char) : Bool :=
  scanSfx (mLit "terraform".data (mDotStar (mLit "apply".data mAny))) (lowers cmd)

/-- Sub-pattern key `'vercel'` of the deploy action table. -/
def keyVercel (cmd : List Char) : Bool :=
  scanSfx (mLit "vercel".data mAny) (lowers cmd)

/-- Sub-pattern key `'netlify'` of the deploy action table. -/
def keyNetlify (cmd : List Char) : Bool :=
  scanSfx (mLit "netlify".data mAny) (lowers cmd)

/-- Sub-pattern key `'firebase'` of the deploy action table. -/
def keyFirebase (cmd : List Char) : Bool :=
  scanSfx (mLit "firebase".data mAny) (lowers cmd)

/-- Sub-pattern key `'fly'` of the deploy action table. -/
def keyFly (cmd : List Char) : Bool :=
  scanSfx (mLit "fly".data mAny) (lowers cmd)

/-- Sub-pattern key `'railway'` of the deploy action table. -/
def keyRailway (cmd : List Char) : Bool :=
  scanSfx (mLit "railway".data mAny) (lowers cmd)

/-- `actionDescriptions` per category, in object-literal insertion order. -/
def actionTable : Category → List ((List Char → Bool) × List Char)
  | .git =>
    [(keyPush, "Push to remote repository".data),
     (keyPushForce, "Force push (destructive)".data),
     (keyMerge, "Merge branches".data),
     (keyBranchDel, "Delete remote branch".data)]
  | .github =>
    [(keyPrMerge, "Merge pull request".data),
     (keyPrCreate, "Create pull request".data),
     (keyRelease, "Create GitHub release".data)]
  | .npm =>
    [(keyPublish, "Publish package to npm".data)]
  | .deploy =>
    [(keyDeploy, "Deploy to environment".data),
     (keyKubectlApply, "Apply Kubernetes configuration".data),
     (keyDockerPush, "Push Docker image".data),
     (keyTerraformApply, "Apply Terraform changes".data),
     (keyVercel, "Deploy to Vercel".data),
     (keyNetlify, "Deploy to Netlify".data),
     (keyFirebase, "Deploy to Firebase".data),
     (keyFly, "Deploy to Fly.io".data),
     (keyRailway, "Deploy to Railway".data)]

/-- The action-description loop of `buildApprovalInfo`: first matching key
wins, with default `'Execute sensitive command'`. -/
def actionFor (table : List ((List Char → Bool) × List Char)) (cmd : List Char) :
    List Char :=
  match table.find? (fun e => e.1 cmd) with
  | some e => e.2
  | none => "Execute sensitive command".data

/-- Pattern `--force` (i flag) of `isSensitiveCommand` and `extractDetails`. -/
def reForce (cmd : List Char) : Bool := strContains "--force".data (lowers cmd)

/-- Pattern `--hard` (i flag) of `isSensitiveCommand`. -/
def reHard (cmd : List Char) : Bool := strContains "--hard".data (lowers cmd)

/-- Pattern `:.*(?:main|master)` (i flag) of `isSensitiveCommand`. -/
def reColonMain (cmd : List Char) : Bool :=
  scanSfx (mLit ":".data (mDotStar (fun s =>
    mLit "main".data mAny s || mLit "master".data mAny s))) (lowers cmd)

/-- Source `isSensitiveCommand`: any of the high-sensitivity patterns. -/
def isSensitiveCommand (cmd : List Char) : Bool :=
  reForce cmd || reHard cmd || reColonMain cmd ||
  reNpmPublish cmd || reTerraformApply cmd

/-- Capture attempt for `origin\s+(\S+)` (case-sensitive) at one start
position: the literal, one or more whitespace characters, then the greedy
maximal non-whitespace run as the captured group. -/
def originCapAt (s : List Char) : Option (List Char) :=
  if "origin".data.isPrefixOf s then
    let rest := s.drop 6
    match rest with
    | [] => none
    | c :: _ =>
      if isWsChar c then
        let cap := (rest.dropWhile isWsChar).takeWhile (fun x => !isWsChar x)
        if cap.isEmpty then none else some cap
      else none
  else none

/-- First match of `command.match(/origin\s+(\S+)/)`, capture group 1. -/
def originBranch (cmd : List Char) : Option (List Char) := firstSome originCapAt cmd

/-- Continuation `\s+(\S+)` of the target capture. -/
def targetCapAfter (rest : List Char) : Option (List Char) :=
  match rest with
  | [] => none
  | c :: _ =>
    if isWsChar c then
      let cap := (rest.dropWhile isWsChar).takeWhile (fun x => !isWsChar x)
      if cap.isEmpty then none else some cap
    else none

/-- Capture attempt for `(?:--target|--env|-e)\s+(\S+)` (i flag) at one position.
The three alternatives are mutually exclusive as prefixes, so trying them in
order without backtracking matches the JavaScript engine. -/
def targetCapAt (s : List Char) : Option (List Char) :=
  if prefixCI "--target".data s then targetCapAfter (s.drop 8)
  else if prefixCI "--env".data s then targetCapAfter (s.drop 5)
  else if prefixCI "-e".data s then targetCapAfter (s.drop 2)
  else none

/-- First match of `command.match(/(?:--target|--env|-e)\s+(\S+)/i)`. -/
def targetCap (cmd : List Char) : Option (List Char) := firstSome targetCapAt cmd

/-- Source `extractDetails`: branch, force-flag note and deploy target,
joined with `', '`, falling back to echoing the command. -/
def extractDetails (cmd : List Char) : List Char :=
  let parts : List (List Char) :=
    (match originBranch cmd with
     | some b => ["Branch: ".data ++ b]
     | none => []) ++
    (if reForce cmd then ["⚠️ Force flag enabled".data] else []) ++
    (match targetCap cmd with
     | some t => ["Target: ".data ++ t]
     | none => [])
  if parts.isEmpty then cmd else List.intercalate ", ".data parts

/-- Source `buildApprovalInfo` (the `matchedPattern` argument is unused by
the source body and therefore not a parameter here). -/
def buildApprovalInfo (category : Category) (command : List Char) :
    DetectedApproval :=
  { category := category
    action := actionFor (actionTable category) command
    command := command
    isSensitive := isSensitiveCommand command
    details := extractDetails command }

/-- Does some git pattern match (the inner loop of `detect` for the git
category)? -/
def gitAny (cmd : List Char) : Bool := gitPatterns.any (fun p => p cmd)

/-- Does some github pattern match? -/
def githubAny (cmd : List Char) : Bool := githubPatterns.any (fun p => p cmd)

/-- Does some npm pattern match? -/
def npmAny (cmd : List Char) : Bool := npmPatterns.any (fun p => p cmd)

/-- Does some deploy pattern match? -/
def deployAny (cmd : List Char) : Bool := deployPatterns.any (fun p => p cmd)

/-- Source `detect`: first matching category (object-entry order git, github,
npm, deploy), first matching pattern within it. -/
def detect (cmd : List Char) : Option DetectedApproval :=
  if gitAny cmd then some (buildApprovalInfo .git cmd)
  else if githubAny cmd then some (buildApprovalInfo .github cmd)
  else if npmAny cmd then some (buildApprovalInfo .npm cmd)
  else if deployAny cmd then some (buildApprovalInfo .deploy cmd)
  else none

/-- Test `^\d+\.` used to skip numbered-list lines. -/
def numberedList (s : List Char) : Bool :=
  match s with
  | [] => false
  | c :: _ =>
    c.isDigit &&
      (match s.dropWhile Char.isDigit with
       | '.' :: _ => true
       | _ => false)

/-- Source `looksLikeCommand`: anchored command-word tests on the lowercased
line (the regexes `^\$\s*` and `^>\s*` reduce to head-character tests
because `\s*` always succeeds). -/
def looksLikeCommand (line : List Char) : Bool :=
  let lower := lowers line
  mLit "git".data (mWsPlus mAny) lower ||
  mLit "gh".data (mWsPlus mAny) lower ||
  mLit "npm".data (mWsPlus mAny) lower ||
  mLit "yarn".data (mWsPlus mAny) lower ||
  mLit "pnpm".data (mWsPlus mAny) lower ||
  mLit "kubectl".data (mWsPlus mAny) lower ||
  mLit "docker".data (mWsPlus mAny) lower ||
  mLit "terraform".data (mWsPlus mAny) lower ||
  mLit "deploy".data (mWsPlus mAny) lower ||
  mLit "$".data (mWsStar mAny) lower ||
  mLit ">".data (mWsStar mAny) lower

/-- Per-line body of `detectInResponse`: trim, skip comments, markdown
markers, numbered lists and config-file references that do not look like
commands, then run `detect` on the trimmed line.  `none` corresponds to the
source's `continue` paths and to `detect` returning `null`. -/
def lineDetection (line : List Char) : Option DetectedApproval :=
  let trimmed := jsTrim line
  if "#".data.isPrefixOf trimmed || "//".data.isPrefixOf trimmed then none
  else if "*".data.isPrefixOf trimmed || "-".data.isPrefixOf trimmed
      || ">".data.isPrefixOf trimmed then none
  else if numberedList trimmed then none
  else if (strContains ".yml".data trimmed || strContains ".yaml".data trimmed
      || strContains ".json".data trimmed) && !looksLikeCommand trimmed then none
  else detect trimmed

/-- Category name as interpolated into the dedup key. -/
def categoryName : Category → List Char
  | .git => "git".data
  | .github => "github".data
  | .npm => "npm".data
  | .deploy => "deploy".data

/-- Dedup key of the source: the template string `category:action`. -/
def actionKey (d : DetectedApproval) : List Char :=
  categoryName d.category ++ ":".data ++ d.action

/-- The accumulation loop of the deduplicating `detectInResponse`: `seen` is
the `seenActions` set, detections are pushed in line order. -/
def detectLoop (seen : List (List Char)) : List (List Char) → List DetectedApproval
  | [] => []
  | line :: rest =>
    match lineDetection line with
    | none => detectLoop seen rest
    | some d =>
      if actionKey d ∈ seen then detectLoop seen rest
      else d :: detectLoop (actionKey d :: seen) rest

/-- Source `detectInResponse` (deduplicating variant of gate.ts). -/
def detectInResponse (response : List Char) : List DetectedApproval :=
  detectLoop [] (jsSplit response)

/-- Per-line detections without deduplication, used to state that the
deduplicating scan keeps exactly the first occurrence of each key. -/
def rawDetections (response : List Char) : List DetectedApproval :=
  (jsSplit response).filterMap lineDetection

/-- Generic first-occurrence filter keyed by `key`, seeded with `seen`. -/
def firstOccurrencesBy {α β : Type} [DecidableEq β] (key : α → β)
    (seen : List β) : List α → List α
  | [] => []
  | x :: xs =>
    if key x ∈ seen then firstOccurrencesBy key seen xs
    else x :: firstOccurrencesBy key (key x :: seen) xs

/-- The scenario command of the force-push test case. -/
def forcePushCmd : List Char := "git push origin main --force".data

/-- The detection produced for the scenario command. -/
def forcePushDetection : DetectedApproval := buildApprovalInfo .git forcePushCmd

/-! ## Stream protocol reader

Embeds the stdout streaming state of `executeWithClaudeCodeCLI` in
`packages/orchestrator/src/claude-code/session.ts`: the line-reassembly
buffer, `fullResponse`, the truncation latch and the token accounting.
`JSON.parse` plus field extraction is a platform primitive and is therefore a
`decode` parameter producing the source's `StreamMessage` shape; event
emission (`handleStreamMessage`, the token warning update) carries no stream
state and is represented by the `warnedTokenLimit` flag that guards it. -/

/-- The source's `StreamMessage` record shape (fields absent in a decoded
line are `none`). -/
structure StreamMessage where
  type : List Char
  content : Option (List Char)
  result : Option (List Char)
  stop_reason : Option (List Char)
deriving DecidableEq

/-- JavaScript truthiness of an optional string field: present and
non-empty. -/
def truthyOpt : Option (List Char) → Bool
  | some (_ :: _) => true
  | _ => false

/-- Truncation pattern `response (?:was )?truncated` (i flag): the optional
group makes it an alternation of two literal phrases. -/
def reRespTruncated (s : List Char) : Bool :=
  strContains "response truncated".data (lowers s) ||
  strContains "response was truncated".data (lowers s)

/-- Truncation pattern `exceeded (?:the )?maximum (?:tokens|context length)`
(i flag), expanded into its four literal phrases. -/
def reExceededMax (s : List Char) : Bool :=
  strContains "exceeded maximum tokens".data (lowers s) ||
  strContains "exceeded the maximum tokens".data (lowers s) ||
  strContains "exceeded maximum context length".data (lowers s) ||
  strContains "exceeded the maximum context length".data (lowers s)

/-- Quote characters of the optional quote class in the stop-reason
pattern. -/
def isQuoteChar (c : Char) : Bool := c = '"' || c = '\''

/-- Matcher for an optional quote character. -/
def mOptQuote (k : Mk) : Mk
  | [] => k []
  | c :: t => k (c :: t) || (isQuoteChar c && k t)

/-- Truncation pattern for a serialized stop-reason field equal to
`max_tokens` (with optional quotes and whitespace around the colon). -/
def reStopReason (s : List Char) : Bool :=
  scanSfx (mLit "stop_reason".data (mOptQuote (mLit ":".data
    (mWsStar (mOptQuote (mLit "max_tokens".data mAny)))))) (lowers s)

/-- Truncation pattern `max_tokens` (i flag). -/
def reMaxTokens (s : List Char) : Bool :=
  strContains "max_tokens".data (lowers s)

/-- Message latched by the first truncation pattern. -/
def truncMsg1 : List Char :=
  "Claude output was truncated due to response length limits. Please reduce the request size or ask for a shorter answer.".data

/-- Message latched by the second truncation pattern. -/
def truncMsg2 : List Char :=
  "Claude hit the maximum context size and stopped early. Try simplifying the request or splitting it into smaller steps.".data

/-- Message latched by the third truncation pattern. -/
def truncMsg3 : List Char :=
  "Claude stopped because it reached the maximum token budget. Please request a shorter response.".data

/-- Message latched by the fourth truncation pattern. -/
def truncMsg4 : List Char :=
  "Claude reached its token budget and stopped early. Try asking for a shorter reply.".data

/-- The ordered `truncationPatterns` table of the source. -/
def truncationPatterns : List ((List Char → Bool) × List Char) :=
  [(reRespTruncated, truncMsg1), (reExceededMax, truncMsg2),
   (reStopReason, truncMsg3), (reMaxTokens, truncMsg4)]

/-- Mutable stream state excluding the line buffer: `fullResponse`, the
latched truncation reason, and the token accounting counters. -/
structure StreamCore where
  fullResponse : List Char
  truncationError : Option (List Char)
  totalChars : Nat
  totalWords : Nat
  warnedTokenLimit : Bool
deriving DecidableEq

/-- Full stream state: the incomplete-line buffer plus the core. -/
structure StreamState where
  buffer : List Char
  core : StreamCore
deriving DecidableEq

/-- Initial stream state of one subprocess execution. -/
def initStream : StreamState :=
  { buffer := []
    core := { fullResponse := [], truncationError := none, totalChars := 0
              totalWords := 0, warnedTokenLimit := false } }

/-- Source `detectTruncation`: a no-op once latched or on empty text,
otherwise latch the first matching pattern's message. -/
def detectTruncation (text : List Char) (c : StreamCore) : StreamCore :=
  match c.truncationError with
  | some _ => c
  | none =>
    if text.isEmpty then c
    else
      match truncationPatterns.find? (fun p => p.1 text) with
      | some p => { c with truncationError := some p.2 }
      | none => c

/-- Number of maximal non-whitespace runs: the length of
`text.trim().split(re-s-plus)` (zero for blank text). -/
def countWordsGo (inWord : Bool) : List Char → Nat
  | [] => 0
  | c :: t =>
    if isWsChar c then countWordsGo false t
    else (if inWord then 0 else 1) + countWordsGo true t

/-- Word count used by the token tracker. -/
def countWords (s : List Char) : Nat := countWordsGo false s

/-- The source's `averageCharsPerToken` constant. -/
def averageCharsPerToken : Nat := 4

/-- Source `trackTokenUsage`: update the character and word counters and set
the warned flag once the estimate crosses `tokenLimit * warningRatio` (the
JavaScript number `warningRatio` is modelled as a rational). -/
def trackTokenUsage (tokenLimit : Nat) (warningRatio : ℚ) (text : List Char)
    (c : StreamCore) : StreamCore :=
  if text.isEmpty then c
  else
    let totalChars := c.totalChars + text.length
    let totalWords := c.totalWords + countWords text
    let approxTokens :=
      max ((totalChars + averageCharsPerToken - 1) / averageCharsPerToken) totalWords
    let warned := c.warnedTokenLimit ||
      decide ((approxTokens : ℚ) ≥ (tokenLimit : ℚ) * warningRatio)
    { c with totalChars := totalChars, totalWords := totalWords
             warnedTokenLimit := warned }

/-- Per-complete-line body of the stdout data handler: skip blank lines, run
truncation detection, then decode; on decode success dispatch on the record
type, on failure append the raw line plus a newline to `fullResponse`. -/
def processLine (decode : List Char → Option StreamMessage) (tokenLimit : Nat)
    (warningRatio : ℚ) (c : StreamCore) (line : List Char) : StreamCore :=
  if (jsTrim line).isEmpty then c
  else
    let c1 := detectTruncation line c
    match decode line with
    | some m =>
      if m.type == "assistant".data && truthyOpt m.content then
        let content := m.content.getD []
        trackTokenUsage tokenLimit warningRatio content
          { c1 with fullResponse := c1.fullResponse ++ content }
      else if m.type == "result".data && truthyOpt m.result then
        let r := m.result.getD []
        trackTokenUsage tokenLimit warningRatio r
          { c1 with fullResponse := c1.fullResponse ++ r }
      else if m.stop_reason == some "max_tokens".data then
        detectTruncation "stop_reason:max_tokens".data c1
      else if m.type == "text".data && truthyOpt m.content then
        trackTokenUsage tokenLimit warningRatio (m.content.getD []) c1
      else c1
    | none =>
      trackTokenUsage tokenLimit warningRatio line
        { c1 with fullResponse := c1.fullResponse ++ line ++ ['\n'] }

/-- Split accumulated text into its newline-terminated complete lines and the
trailing incomplete fragment: the source's split-then-pop idiom. -/
def splitCL : List Char → List (List Char) × List Char
  | [] => ([], [])
  | c :: cs =>
    if c = '\n' then
      ([] :: (splitCL cs).1, (splitCL cs).2)
    else
      match splitCL cs with
      | (l :: ls, t) => ((c :: l) :: ls, t)
      | ([], t) => ([], c :: t)

/-- The stdout data handler: append the chunk to the buffer, process every
complete line, retain the trailing fragment. -/
def feed (decode : List Char → Option StreamMessage) (tokenLimit : Nat)
    (warningRatio : ℚ) (st : StreamState) (chunk : List Char) : StreamState :=
  let r := splitCL (st.buffer ++ chunk)
  { buffer := r.2
    core := r.1.foldl (processLine decode tokenLimit warningRatio) st.core }

/-- The close handler's flush of the remaining buffer: truncation detection
on the fragment, then decode; only an assistant record contributes content,
and an undecodable fragment is appended to `fullResponse` without a
newline. -/
def closeFlush (decode : List Char → Option StreamMessage) (tokenLimit : Nat)
    (warningRatio : ℚ) (st : StreamState) : StreamCore :=
  if (jsTrim st.buffer).isEmpty then st.core
  else
    let c1 := detectTruncation st.buffer st.core
    match decode st.buffer with
    | some m =>
      if m.type == "assistant".data && truthyOpt m.content then
        let content := m.content.getD []
        trackTokenUsage tokenLimit warningRatio content
          { c1 with fullResponse := c1.fullResponse ++ content }
      else c1
    | none =>
      trackTokenUsage tokenLimit warningRatio st.buffer
        { c1 with fullResponse := c1.fullResponse ++ st.buffer }

/-! ## Tasks, sessions and updates -/

/-- The update event types of `OrchestratorUpdate`. -/
inductive UpdateType where
  | STATUS_UPDATE
  | APPROVAL_REQUIRED
  | TASK_COMPLETE
  | ERROR
deriving DecidableEq

/-- Agent kinds of the two session implementations. -/
inductive AgentType where
  | claude
  | codex
deriving DecidableEq

/-- The `OrchestratorUpdate` event shape (the `approvalDetails` payload is
display-only data mirrored from the detection and is not tracked). -/
structure OrchestratorUpdate where
  type : UpdateType
  userId : String
  message : List Char
  approvalId : Option Nat := none
  agent : Option AgentType := none
deriving DecidableEq

/-- Task statuses of `TaskInfo`. -/
inductive TaskStatus where
  | running
  | completed
  | failed
deriving DecidableEq

/-- The `TaskInfo` record (identifier and timestamp supplied by the
environment as numbers). -/
structure TaskInfo where
  id : Nat
  description : List Char
  status : TaskStatus
  startedAt : Nat
  userId : String
  agent : AgentType
deriving DecidableEq

/-- The `SubAgent` record of the session state. -/
structure SubAgent where
  id : Nat
  task : List Char
  repo : List Char
  status : TaskStatus
  startedAt : Nat
  lastUpdate : List Char
deriving DecidableEq

/-- The `SessionState` owned by `SessionManager` (state/session.ts). -/
structure SessionState where
  currentOrg : Option (List Char) := none
  currentRepo : Option (List Char) := none
  currentBranch : Option (List Char) := none
  currentTask : Option TaskInfo := none
  activeSubAgents : List SubAgent := []
deriving DecidableEq

/-- SessionManager.startTask: create a fresh running task and install it as
the current task (uuid and Date are environment inputs `id` and `now`). -/
def startTask (id : Nat) (now : Nat) (description : List Char) (userId : String)
    (agent : AgentType) (s : SessionState) : SessionState × TaskInfo :=
  let task : TaskInfo :=
    { id := id, description := description, status := .running
      startedAt := now, userId := userId, agent := agent }
  ({ s with currentTask := some task }, task)

/-- SessionManager.updateTaskStatus: overwrite the current task's status
whenever a current task exists. -/
def updateTaskStatus (status : TaskStatus) (s : SessionState) : SessionState :=
  match s.currentTask with
  | some t => { s with currentTask := some { t with status := status } }
  | none => s

/-- SessionManager.completeTask. -/
def completeTask (s : SessionState) : SessionState :=
  match s.currentTask with
  | some t => { s with currentTask := some { t with status := .completed } }
  | none => s

/-- SessionManager.failTask. -/
def failTask (s : SessionState) : SessionState :=
  match s.currentTask with
  | some t => { s with currentTask := some { t with status := .failed } }
  | none => s

/-- SessionManager.clearTask. -/
def clearTask (s : SessionState) : SessionState :=
  { s with currentTask := none }

/-- Conversation history entries. -/
structure ConversationMessage where
  role : List Char
  content : List Char
deriving DecidableEq

/-- State of a `ClaudeCodeSession` (the spawned child process reduced to its
presence, since only null-ness of `currentProcess` is ever branched on). -/
structure ClaudeSessionState where
  isProcessing : Bool
  currentProcessActive : Bool
  conversationHistory : List ConversationMessage
  session : SessionState
deriving DecidableEq

/-- State of a `CodexSession` (no subprocess handle). -/
structure CodexSessionState where
  isProcessing : Bool
  conversationHistory : List ConversationMessage
  session : SessionState
deriving DecidableEq

/-- The busy-rejection message shared by both sessions. -/
def busyMessage : List Char :=
  "A task is already in progress. Please wait for it to complete.".data

/-- ClaudeCodeSession.processInstruction: the busy guard rejects with a
single ERROR update and returns before any mutation.  The non-busy body
(context parsing, task start, subprocess execution, cleanup) is the
`proceed` continuation parameter: claim C4 is about the guard and holds for
every continuation behaviour. -/
def claudeProcessInstruction
    (proceed : List Char → String → ClaudeSessionState →
      ClaudeSessionState × List OrchestratorUpdate)
    (instruction : List Char) (userId : String) (s : ClaudeSessionState) :
    ClaudeSessionState × List OrchestratorUpdate :=
  if s.isProcessing then
    (s, [{ type := .ERROR, userId := userId, message := busyMessage
           agent := some .claude }])
  else proceed instruction userId s

/-- CodexSession.processInstruction: identical busy guard with the codex
agent tag; the non-busy body is again the `proceed` continuation. -/
def codexProcessInstruction
    (proceed : List Char → String → CodexSessionState →
      CodexSessionState × List OrchestratorUpdate)
    (instruction : List Char) (userId : String) (s : CodexSessionState) :
    CodexSessionState × List OrchestratorUpdate :=
  if s.isProcessing then
    (s, [{ type := .ERROR, userId := userId, message := busyMessage
           agent := some .codex }])
  else proceed instruction userId s

/-- ClaudeCodeSession.cancelCurrentTask: only acts while a child process
handle is present (kills it, releases the lock, fails the task). -/
def cancelCurrentTask (s : ClaudeSessionState) : ClaudeSessionState :=
  if s.currentProcessActive then
    { s with currentProcessActive := false, isProcessing := false
             session := failTask s.session }
  else s

/-- Outcome selected by the close handler after the buffer flush. -/
inductive CloseOutcome where
  | truncated (msg : List Char)
  | exitFailed (code : Int)
  | proceed
deriving DecidableEq

/-- The generic exit-code error text. -/
def exitCodeMessage (code : Int) : List Char :=
  "Claude Code process exited with code ".data ++ (toString code).data

/-- The close-event handler of `executeWithClaudeCodeCLI` up to its two
early-return failure branches: flush the remaining buffer, then (1) a latched
truncation reason fails the task and is emitted verbatim, else (2) a non-zero
non-null exit code fails the task with the generic message, else (3) the
successful continuation (approval scan, history append, completeTask) runs,
signalled here by `CloseOutcome.proceed`. -/
def closeHandler (decode : List Char → Option StreamMessage) (tokenLimit : Nat)
    (warningRatio : ℚ) (userId : String) (agent : AgentType)
    (st : StreamState) (exitCode : Option Int) (sess : SessionState) :
    StreamCore × SessionState × List OrchestratorUpdate × CloseOutcome :=
  let core := closeFlush decode tokenLimit warningRatio st
  match core.truncationError with
  | some msg =>
    (core, failTask sess,
     [{ type := .ERROR, userId := userId, message := msg, agent := some agent }],
     .truncated msg)
  | none =>
    match exitCode with
    | some code =>
      if code ≠ 0 then
        (core, failTask sess,
         [{ type := .ERROR, userId := userId, message := exitCodeMessage code
            agent := some agent }],
         .exitFailed code)
      else (core, sess, [], .proceed)
    | none => (core, sess, [], .proceed)

/-! ## Approval gate

Embeds `ApprovalGate` of `packages/orchestrator/src/approval/gate.ts`.  The
pending `Map` becomes a list with unique ids (uuid freshness is a premise of
the request step); each record's single-shot `resolve` callback becomes an
append-only settlement log `settled`; each `setTimeout` handle becomes an
entry of `armed`, removed exactly where the source calls `clearTimeout` or
where the timer fires; emitted gate events accumulate in `updates`. -/

/-- The fixed approval timeout constant, in milliseconds. -/
def APPROVAL_TIMEOUT_MS : Nat := 30 * 60 * 1000

/-- The `PendingApproval` record (`resolve` and `timeoutId` are realised by
the `settled` log and the `armed` set of the gate state). -/
structure PendingApproval where
  id : Nat
  userId : String
  action : List Char
  repo : List Char
  details : List Char
  command : List Char
  createdAt : Nat
deriving DecidableEq

/-- State of an `ApprovalGate` instance. -/
structure GateState where
  pendingApprovals : List PendingApproval
  armed : List (Nat × String)
  settled : List (Nat × Bool)
  updates : List OrchestratorUpdate
deriving DecidableEq

/-- A fresh gate. -/
def initGate : GateState :=
  { pendingApprovals := [], armed := [], settled := [], updates := [] }

/-- The timeout notification text emitted by the timer callback. -/
def timeoutMessage : List Char :=
  "⏰ Approval request timed out after 30 minutes. Action was not executed.".data

/-- Ids of the live pending records. -/
def pendingIds (g : GateState) : List Nat := g.pendingApprovals.map (·.id)

/-- Ids that have been settled (resolved) so far. -/
def settledIds (g : GateState) : List Nat := g.settled.map (·.1)

/-- ApprovalGate.requestApproval: emit the APPROVAL_REQUIRED update, store
the pending record and arm its 30-minute timer (`id` is the generated uuid,
`now` the creation date). -/
def requestApproval (id : Nat) (userId : String) (detection : DetectedApproval)
    (repoContext : List Char) (now : Nat) (g : GateState) : GateState :=
  let update : OrchestratorUpdate :=
    { type := .APPROVAL_REQUIRED, userId := userId
      message := "Approval required for: ".data ++ detection.action
      approvalId := some id }
  let pending : PendingApproval :=
    { id := id, userId := userId, action := detection.action
      repo := repoContext, details := detection.details
      command := detection.command, createdAt := now }
  { g with
    updates := g.updates ++ [update]
    pendingApprovals := g.pendingApprovals ++ [pending]
    armed := g.armed ++ [(id, userId)] }

/-- ApprovalGate.handleResponse: fail closed (`false`, no state change) on an
unknown id or a mismatched user; on match clear the timeout, remove the
record, resolve with `approved`, return `true`. -/
def handleResponse (approvalId : Nat) (approved : Bool) (userId : String)
    (g : GateState) : GateState × Bool :=
  match g.pendingApprovals.find? (fun p => p.id == approvalId) with
  | none => (g, false)
  | some pending =>
    if pending.userId ≠ userId then (g, false)
    else
      ({ g with
         armed := g.armed.filter (fun a => a.1 != approvalId)
         pendingApprovals := g.pendingApprovals.filter (fun p => p.id != approvalId)
         settled := g.settled ++ [(approvalId, approved)] }, true)

/-- The timer callback armed by requestApproval for `(id, userId)`: delete
the record, emit the timeout notification to the requesting user, resolve
with `false`.  The fired timer leaves the armed set. -/
def fireTimeout (id : Nat) (userId : String) (g : GateState) : GateState :=
  { g with
    pendingApprovals := g.pendingApprovals.filter (fun p => p.id != id)
    armed := g.armed.filter (fun a => a != (id, userId))
    updates := g.updates ++
      [{ type := .ERROR, userId := userId, message := timeoutMessage }]
    settled := g.settled ++ [(id, false)] }

/-- ApprovalGate.cancelAllForUser: for every pending record of the user,
clear its timeout, resolve `false` and delete it. -/
def cancelAllForUser (userId : String) (g : GateState) : GateState :=
  let cancelled := g.pendingApprovals.filter (fun p => p.userId == userId)
  { g with
    pendingApprovals := g.pendingApprovals.filter (fun p => p.userId != userId)
    armed := g.armed.filter (fun a => !(cancelled.map (·.id)).contains a.1)
    settled := g.settled ++ cancelled.map (fun p => (p.id, false)) }

/-- ApprovalGate.clearAll: clear every timeout, resolve everything `false`,
empty the pending map. -/
def clearAll (g : GateState) : GateState :=
  { g with
    pendingApprovals := []
    armed := g.armed.filter (fun a => !(g.pendingApprovals.map (·.id)).contains a.1)
    settled := g.settled ++ g.pendingApprovals.map (fun p => (p.id, false)) }

/-- Events that can touch the gate state. -/
inductive GateEvent where
  | request (id : Nat) (userId : String) (detection : DetectedApproval)
      (repoContext : List Char) (now : Nat)
  | respond (id : Nat) (approved : Bool) (userId : String)
  | fire (id : Nat) (userId : String)
  | cancelUser (userId : String)
  | clearEvt
deriving DecidableEq

/-- Single-step semantics of the gate.  A request carries a fresh uuid (never
seen before, neither pending nor settled); a timer can only fire while it is
armed — `clearTimeout` accompanies every removal path in the source, so a
fired timer's record is always still pending. -/
inductive GateStep : GateState → GateEvent → GateState → Prop where
  | request {g : GateState} {id : Nat} {userId : String}
      {detection : DetectedApproval} {repoContext : List Char} {now : Nat} :
      id ∉ pendingIds g → id ∉ settledIds g →
      GateStep g (.request id userId detection repoContext now)
        (requestApproval id userId detection repoContext now g)
  | respond {g : GateState} {id : Nat} {approved : Bool} {userId : String} :
      GateStep g (.respond id approved userId) (handleResponse id approved userId g).1
  | fire {g : GateState} {id : Nat} {userId : String} :
      (id, userId) ∈ g.armed →
      GateStep g (.fire id userId) (fireTimeout id userId g)
  | cancelUser {g : GateState} {userId : String} :
      GateStep g (.cancelUser userId) (cancelAllForUser userId g)
  | clearEvt {g : GateState} : GateStep g .clearEvt (clearAll g)

/-- Reflexive-transitive closure of `GateStep` along an event list. -/
inductive GateTrace : GateState → List GateEvent → GateState → Prop where
  | nil {g : GateState} : GateTrace g [] g
  | cons {g g' g'' : GateState} {e : GateEvent} {es : List GateEvent} :
      GateStep g e g' → GateTrace g' es g'' → GateTrace g (e :: es) g''

/-- Ids carried by the request events of a trace. -/
def requestedIds : List GateEvent → List Nat
  | [] => []
  | .request id _ _ _ _ :: es => id :: requestedIds es
  | _ :: es => requestedIds es

/-- Number of timer firings for a given id in a trace. -/
def fireCount (id : Nat) : List GateEvent → Nat
  | [] => 0
  | .fire i _ :: es => (if i = id then 1 else 0) + fireCount id es
  | _ :: es => fireCount id es

/-- Total number of timer firings in a trace. -/
def totalFires : List GateEvent → Nat
  | [] => 0
  | .fire _ _ :: es => 1 + totalFires es
  | _ :: es => totalFires es

/-- Number of timeout notifications in an update log. -/
def timeoutUpdateCount (us : List OrchestratorUpdate) : Nat :=
  (us.filter (fun u => u.message == timeoutMessage)).length

/-- A sample detection value used to instantiate gate traces on concrete
inputs. -/
def sampleDetection : DetectedApproval :=
  { category := .git, action := [], command := [], isSensitive := false
    details := [] }

/-- Gate state invariant: pending ids are unique (Map semantics), each id is
settled at most once, no live record has been settled, and the armed timers
are exactly the (id, user) pairs of the pending records. -/
def GateInv (g : GateState) : Prop :=
  (pendingIds g).Nodup ∧ (settledIds g).Nodup ∧
  (∀ p ∈ g.pendingApprovals, p.id ∉ settledIds g) ∧
  (∀ a : Nat × String, a ∈ g.armed ↔
    ∃ p ∈ g.pendingApprovals, p.id = a.1 ∧ p.userId = a.2)

/-! # Theorems -/

/-! ## Matcher and first-occurrence lemmas -/

theorem scanSfx_mono {p q : List Char → Bool}
    (h : ∀ t, p t = true → q t = true) :
    ∀ s, scanSfx p s = true → scanSfx q s = true := by
  intro s
  induction s with
  | nil => exact fun hs => h _ hs
  | cons c t ih =>
    intro hs
    simp only [scanSfx, Bool.or_eq_true] at hs ⊢
    rcases hs with h1 | h1
    · exact Or.inl (h _ h1)
    · exact Or.inr (ih h1)

theorem mLit_drop_cont {w : List Char} {k : Mk} {s : List Char}
    (h : mLit w k s = true) : mLit w mAny s = true := by
  simp only [mLit, Bool.and_eq_true] at h
  simp only [mLit, mAny, Bool.and_true]
  exact h.1

theorem keyPushForce_imp_keyPush {cmd : List Char}
    (h : keyPushForce cmd = true) : keyPush cmd = true := by
  unfold keyPushForce at h
  unfold keyPush
  exact scanSfx_mono (fun t ht => mLit_drop_cont ht) _ h

theorem actionFor_mem_or_default (table : List ((List Char → Bool) × List Char))
    (cmd : List Char) :
    actionFor table cmd ∈ table.map Prod.snd ∨
    actionFor table cmd = "Execute sensitive command".data := by
  unfold actionFor
  cases h : table.find? (fun e => e.1 cmd) with
  | none => exact Or.inr rfl
  | some e => exact Or.inl (List.mem_map_of_mem _ (List.mem_of_find?_eq_some h))

theorem firstOcc_key_not_seen {α β : Type} [DecidableEq β] (key : α → β) :
    ∀ (l : List α) (seen : List β) (x : α),
      x ∈ firstOccurrencesBy key seen l → key x ∉ seen := by
  intro l
  induction l with
  | nil => intro seen x hx; exact absurd hx (List.not_mem_nil x)
  | cons a as ih =>
    intro seen x hx
    by_cases ha : key a ∈ seen
    · rw [firstOccurrencesBy, if_pos ha] at hx
      exact ih seen x hx
    · rw [firstOccurrencesBy, if_neg ha] at hx
      rcases List.mem_cons.mp hx with rfl | hx
      · exact ha
      · intro hk
        exact ih _ x hx (List.mem_cons_of_mem _ hk)

theorem firstOcc_keys_nodup {α β : Type} [DecidableEq β] (key : α → β) :
    ∀ (l : List α) (seen : List β),
      ((firstOccurrencesBy key seen l).map key).Nodup := by
  intro l
  induction l with
  | nil => intro seen; exact List.nodup_nil
  | cons a as ih =>
    intro seen
    by_cases ha : key a ∈ seen
    · rw [firstOccurrencesBy, if_pos ha]; exact ih seen
    · rw [firstOccurrencesBy, if_neg ha]
      simp only [List.map_cons, List.nodup_cons]
      refine ⟨?_, ih _⟩
      intro hk
      rcases List.mem_map.mp hk with ⟨y, hy, hky⟩
      exact firstOcc_key_not_seen key as _ y hy (hky ▸ List.mem_cons_self _ _)

theorem detectLoop_eq_firstOcc (seen : List (List Char)) (lines : List (List Char)) :
    detectLoop seen lines =
      firstOccurrencesBy actionKey seen (lines.filterMap lineDetection) := by
  induction lines generalizing seen with
  | nil => rfl
  | cons l ls ih =>
    cases h : lineDetection l with
    | none => simp [detectLoop, h, ih]
    | some d =>
      simp only [detectLoop, h, List.filterMap_cons, firstOccurrencesBy, ih]
      by_cases hd : actionKey d ∈ seen <;> simp [hd]

/-! ## Claim theorems for the detector -/

theorem actionFor_cons_pos {f : List Char → Bool} {lbl : List Char}
    {rest : List ((List Char → Bool) × List Char)} {cmd : List Char}
    (h : f cmd = true) : actionFor ((f, lbl) :: rest) cmd = lbl := by
  unfold actionFor
  rw [List.find?_cons_of_pos _ (by simpa using h)]

theorem actionFor_cons_neg {f : List Char → Bool} {lbl : List Char}
    {rest : List ((List Char → Bool) × List Char)} {cmd : List Char}
    (h : f cmd = false) : actionFor ((f, lbl) :: rest) cmd = actionFor rest cmd := by
  unfold actionFor
  rw [List.find?_cons_of_neg _ (by simp [h])]

theorem actionFor_nil (cmd : List Char) :
    actionFor [] cmd = "Execute sensitive command".data := rfl

/-- C10: for every command in the git category the sub-pattern key `push` is
tested before `push.*--force` and matches every command the latter matches,
so a command containing `push` (case-insensitively) is labelled
`Push to remote repository`, and the label `Force push (destructive)` is
unreachable for every category and command. -/
theorem buildApprovalInfo_push_label :
    (∀ cmd : List Char, keyPush cmd = true →
      (buildApprovalInfo .git cmd).action = "Push to remote repository".data) ∧
    (∀ (cat : Category) (cmd : List Char),
      (buildApprovalInfo cat cmd).action ≠ "Force push (destructive)".data) := by
  have eGit : ∀ cmd : List Char, (buildApprovalInfo .git cmd).action =
      actionFor [(keyPush, "Push to remote repository".data),
                 (keyPushForce, "Force push (destructive)".data),
                 (keyMerge, "Merge branches".data),
                 (keyBranchDel, "Delete remote branch".data)] cmd := fun _ => rfl
  constructor
  · intro cmd h
    rw [eGit cmd, actionFor_cons_pos h]
  · intro cat cmd
    cases cat with
    | git =>
      rw [eGit cmd]
      cases hp : keyPush cmd with
      | true => rw [actionFor_cons_pos hp]; decide
      | false =>
        have hf : keyPushForce cmd = false := by
          cases hq : keyPushForce cmd
          · rfl
          · rw [keyPushForce_imp_keyPush hq] at hp; exact absurd hp (by simp)
        rw [actionFor_cons_neg hp, actionFor_cons_neg hf]
        cases hm : keyMerge cmd with
        | true => rw [actionFor_cons_pos hm]; decide
        | false =>
          rw [actionFor_cons_neg hm]
          cases hb : keyBranchDel cmd with
          | true => rw [actionFor_cons_pos hb]; decide
          | false => rw [actionFor_cons_neg hb, actionFor_nil]; decide
    | github =>
      intro he
      have he' : actionFor (actionTable .github) cmd =
          "Force push (destructive)".data := he
      rcases actionFor_mem_or_default (actionTable .github) cmd with hm | hd
      · rw [he'] at hm; exact absurd hm (by decide)
      · rw [he'] at hd; exact absurd hd (by decide)
    | npm =>
      intro he
      have he' : actionFor (actionTable .npm) cmd =
          "Force push (destructive)".data := he
      rcases actionFor_mem_or_default (actionTable .npm) cmd with hm | hd
      · rw [he'] at hm; exact absurd hm (by decide)
      · rw [he'] at hd; exact absurd hd (by decide)
    | deploy =>
      intro he
      have he' : actionFor (actionTable .deploy) cmd =
          "Force push (destructive)".data := he
      rcases actionFor_mem_or_default (actionTable .deploy) cmd with hm | hd
      · rw [he'] at hm; exact absurd hm (by decide)
      · rw [he'] at hd; exact absurd hd (by decide)

theorem buildApprovalInfo_push_label_witness :
    keyPush "git push origin main".data = true ∧
    (buildApprovalInfo .git "git push origin main".data).action =
      "Push to remote repository".data ∧
    (buildApprovalInfo .git "git push origin main --force".data).action ≠
      "Force push (destructive)".data :=
  ⟨by decide, buildApprovalInfo_push_label.1 _ (by decide),
   buildApprovalInfo_push_label.2 .git _⟩

/-- C6: the deduplicating `detectInResponse` never returns two entries with
the same (category, action label) pair — its output is exactly the
first-occurrence filter, in line order, of the per-line detections keyed by
the `category:action` string. -/
theorem detectInResponse_dedup (response : List Char) :
    (detectInResponse response).Pairwise
      (fun a b => ¬(a.category = b.category ∧ a.action = b.action)) ∧
    detectInResponse response =
      firstOccurrencesBy actionKey [] (rawDetections response) := by
  have h2 : detectInResponse response =
      firstOccurrencesBy actionKey [] (rawDetections response) :=
    detectLoop_eq_firstOcc [] (jsSplit response)
  refine ⟨?_, h2⟩
  have hnd : ((detectInResponse response).map actionKey).Nodup := by
    rw [h2]; exact firstOcc_keys_nodup actionKey _ []
  have hp : (detectInResponse response).Pairwise
      (fun a b => actionKey a ≠ actionKey b) := List.pairwise_map.mp hnd
  exact hp.imp (fun h hc => h (by simp [actionKey, hc.1, hc.2]))

/-! ## Claim theorems for the sessions and the close handler -/

/-- C4: while `isProcessing` is set, `processInstruction` (both the Claude
and the Codex session) emits exactly one ERROR update and returns the state
unchanged — no task is started, the running task, the conversation history
and the repository context are untouched — for every possible non-busy
continuation. -/
theorem processInstruction_busy_rejected :
    (∀ (proceed : List Char → String → ClaudeSessionState →
        ClaudeSessionState × List OrchestratorUpdate)
      (instruction : List Char) (userId : String) (s : ClaudeSessionState),
      s.isProcessing = true →
      claudeProcessInstruction proceed instruction userId s =
        (s, [{ type := .ERROR, userId := userId, message := busyMessage
               agent := some .claude }])) ∧
    (∀ (proceed : List Char → String → CodexSessionState →
        CodexSessionState × List OrchestratorUpdate)
      (instruction : List Char) (userId : String) (s : CodexSessionState),
      s.isProcessing = true →
      codexProcessInstruction proceed instruction userId s =
        (s, [{ type := .ERROR, userId := userId, message := busyMessage
               agent := some .codex }])) := by
  constructor
  · intro proceed instruction userId s h
    simp [claudeProcessInstruction, h]
  · intro proceed instruction userId s h
    simp [codexProcessInstruction, h]

theorem processInstruction_busy_rejected_witness :
    claudeProcessInstruction (fun _ _ s => (s, [])) "fix".data "u7"
        { isProcessing := true, currentProcessActive := false
          conversationHistory := [], session := {} } =
      ({ isProcessing := true, currentProcessActive := false
         conversationHistory := [], session := {} },
       [{ type := .ERROR, userId := "u7", message := busyMessage
          agent := some .claude }]) ∧
    codexProcessInstruction (fun _ _ s => (s, [])) "fix".data "u7"
        { isProcessing := true, conversationHistory := [], session := {} } =
      ({ isProcessing := true, conversationHistory := [], session := {} },
       [{ type := .ERROR, userId := "u7", message := busyMessage
          agent := some .codex }]) :=
  ⟨processInstruction_busy_rejected.1 _ _ _ _ rfl,
   processInstruction_busy_rejected.2 _ _ _ _ rfl⟩

/-- C9 counterexample: the task operations do not protect terminal statuses —
after `failTask` (status `failed`, terminal) a call to `completeTask` changes
the same task's status to `completed`, so the claimed immutability of
terminal statuses fails. -/
theorem terminal_status_not_immutable :
    ((failTask (startTask 1 0 "d".data "u" .claude {}).1).currentTask.map
        TaskInfo.status = some .failed) ∧
    ((completeTask (failTask (startTask 1 0 "d".data "u" .claude {}).1)).currentTask.map
        TaskInfo.status = some .completed) :=
  ⟨rfl, rfl⟩

/-- C9 amended: whenever a current task exists, `completeTask`, `failTask`
and `updateTaskStatus` overwrite its status unconditionally (terminal or
not), and `cancelCurrentTask` with a live process does the same via
`failTask`; only the absence of a current task makes them no-ops. -/
theorem task_status_overwritten (s : SessionState) (t : TaskInfo)
    (h : s.currentTask = some t) :
    completeTask s = { s with currentTask := some { t with status := .completed } } ∧
    failTask s = { s with currentTask := some { t with status := .failed } } ∧
    (∀ st : TaskStatus, updateTaskStatus st s =
      { s with currentTask := some { t with status := st } }) ∧
    (∀ cs : ClaudeSessionState, cs.session = s → cs.currentProcessActive = true →
      (cancelCurrentTask cs).session =
        { s with currentTask := some { t with status := .failed } }) := by
  refine ⟨?_, ?_, ?_, ?_⟩
  · simp [completeTask, h]
  · simp [failTask, h]
  · intro st; simp [updateTaskStatus, h]
  · intro cs h1 h2
    simp [cancelCurrentTask, h2, h1, failTask, h]

theorem task_status_overwritten_witness :
    completeTask { currentTask := some ⟨1, "d".data, .failed, 0, "u", .claude⟩ } =
      ({ currentTask := some ⟨1, "d".data, .completed, 0, "u", .claude⟩ } :
        SessionState) :=
  (task_status_overwritten _ _ rfl).1

/-- C5: after the close-time buffer flush, a latched truncation reason takes
priority: the task is failed and exactly the latched message is emitted
verbatim as the ERROR update, for every exit code (including non-zero); the
generic exit-code failure path runs only when no truncation reason is
latched and the exit code is non-zero and non-null. -/
theorem close_truncation_priority
    (decode : List Char → Option StreamMessage) (tokenLimit : Nat)
    (warningRatio : ℚ) (userId : String) (agent : AgentType)
    (st : StreamState) (exitCode : Option Int) (sess : SessionState) :
    (∀ msg, (closeFlush decode tokenLimit warningRatio st).truncationError = some msg →
      closeHandler decode tokenLimit warningRatio userId agent st exitCode sess =
        (closeFlush decode tokenLimit warningRatio st, failTask sess,
         [{ type := .ERROR, userId := userId, message := msg, agent := some agent }],
         .truncated msg)) ∧
    ((closeFlush decode tokenLimit warningRatio st).truncationError = none →
      (∀ code, exitCode = some code → code ≠ 0 →
        closeHandler decode tokenLimit warningRatio userId agent st exitCode sess =
          (closeFlush decode tokenLimit warningRatio st, failTask sess,
           [{ type := .ERROR, userId := userId, message := exitCodeMessage code
              agent := some agent }],
           .exitFailed code)) ∧
      (exitCode = none ∨ exitCode = some 0 →
        closeHandler decode tokenLimit warningRatio userId agent st exitCode sess =
          (closeFlush decode tokenLimit warningRatio st, sess, [], .proceed))) := by
  constructor
  · intro msg h
    simp [closeHandler, h]
  · intro h
    constructor
    · intro code hc hne
      simp [closeHandler, h, hc, hne]
    · rintro (hc | hc) <;> simp [closeHandler, h, hc]

theorem close_truncation_priority_witness :
    (closeFlush (fun _ => none) 200000 (9 / 10)
        { buffer := "max_tokens".data, core := initStream.core }).truncationError =
      some truncMsg4 ∧
    closeHandler (fun _ => none) 200000 (9 / 10) "u" .claude
        { buffer := "max_tokens".data, core := initStream.core } (some 1) {} =
      (closeFlush (fun _ => none) 200000 (9 / 10)
        { buffer := "max_tokens".data, core := initStream.core }, failTask {},
       [{ type := .ERROR, userId := "u", message := truncMsg4
          agent := some .claude }],
       .truncated truncMsg4) := by
  have h : (closeFlush (fun _ => none) 200000 ((9 : ℚ) / 10)
      { buffer := "max_tokens".data, core := initStream.core }).truncationError =
      some truncMsg4 := by decide
  exact ⟨h, (close_truncation_priority (fun _ => none) 200000 (9 / 10) "u" .claude
    { buffer := "max_tokens".data, core := initStream.core } (some 1) {}).1
      truncMsg4 h⟩

/-! ## Stream chunking lemmas and the round-trip claim -/

theorem splitCL_no_newline : ∀ {s : List Char}, (splitCL s).1 = [] → (splitCL s).2 = s := by
  intro s
  induction s with
  | nil => intro _; rfl
  | cons c cs ih =>
    intro h
    by_cases hc : c = '\n'
    · simp [splitCL, hc] at h
    · rcases hs : splitCL cs with ⟨fst, snd⟩
      cases fst with
      | nil =>
        have h2 : (splitCL cs).2 = cs := ih (by rw [hs])
        rw [hs] at h2
        simp only at h2
        simp [splitCL, hc, hs, h2]
      | cons l ls => simp [splitCL, hc, hs] at h

theorem splitCL_tail_no_nl : ∀ (s : List Char), '\n' ∉ (splitCL s).2 := by
  intro s
  induction s with
  | nil => simp [splitCL]
  | cons c cs ih =>
    by_cases hc : c = '\n'
    · simpa [splitCL, hc] using ih
    · rcases hs : splitCL cs with ⟨fst, snd⟩
      rw [hs] at ih
      cases fst with
      | nil =>
        simp only [splitCL, if_neg hc, hs]
        intro hmem
        rcases List.mem_cons.mp hmem with h | h
        · exact hc h.symm
        · exact ih h
      | cons l ls =>
        simpa [splitCL, hc, hs] using ih

theorem splitCL_of_no_nl : ∀ {s : List Char}, '\n' ∉ s → splitCL s = ([], s) := by
  intro s
  induction s with
  | nil => intro _; rfl
  | cons c cs ih =>
    intro h
    have hc : ¬(c = '\n') := fun he => h (he ▸ List.mem_cons_self _ _)
    have hcs : '\n' ∉ cs := fun hm => h (List.mem_cons_of_mem _ hm)
    simp [splitCL, hc, ih hcs]

theorem splitCL_append : ∀ (x y : List Char),
    splitCL (x ++ y) =
      ((splitCL x).1 ++ (splitCL ((splitCL x).2 ++ y)).1,
       (splitCL ((splitCL x).2 ++ y)).2) := by
  intro x
  induction x with
  | nil => intro y; simp [splitCL]
  | cons c x' ih =>
    intro y
    by_cases hc : c = '\n'
    · have e1 : splitCL ((c :: x') ++ y) =
          ([] :: (splitCL (x' ++ y)).1, (splitCL (x' ++ y)).2) := by
        simp [splitCL, hc]
      have e2 : splitCL (c :: x') = ([] :: (splitCL x').1, (splitCL x').2) := by
        simp [splitCL, hc]
      rw [e1, e2, ih y]
      simp
    · rcases hs : splitCL x' with ⟨fst, snd⟩
      cases fst with
      | cons l ls =>
        have e2 : splitCL (c :: x') = ((c :: l) :: ls, snd) := by
          simp [splitCL, hc, hs]
        have e1 : splitCL ((c :: x') ++ y) =
            ((c :: l) :: (ls ++ (splitCL (snd ++ y)).1), (splitCL (snd ++ y)).2) := by
          have ihy := ih y
          rw [hs] at ihy
          simp only [List.cons_append] at ihy
          simp [splitCL, hc, ihy]
        rw [e1, e2]
        simp
      | nil =>
        have hsnd : snd = x' := by
          have h2 : (splitCL x').2 = x' := splitCL_no_newline (by rw [hs])
          rw [hs] at h2
          exact h2
        have e2 : splitCL (c :: x') = ([], c :: snd) := by
          simp [splitCL, hc, hs]
        rw [e2, hsnd]
        simp

theorem feed_append (decode : List Char → Option StreamMessage) (tokenLimit : Nat)
    (warningRatio : ℚ) (st : StreamState) (x y : List Char) :
    feed decode tokenLimit warningRatio (feed decode tokenLimit warningRatio st x) y =
      feed decode tokenLimit warningRatio st (x ++ y) := by
  simp only [feed]
  rw [← List.append_assoc, splitCL_append (st.buffer ++ x) y]
  simp [List.foldl_append]

theorem feed_nil (decode : List Char → Option StreamMessage) (tokenLimit : Nat)
    (warningRatio : ℚ) {st : StreamState} (h : '\n' ∉ st.buffer) :
    feed decode tokenLimit warningRatio st [] = st := by
  simp [feed, splitCL_of_no_nl h]

theorem feed_chunks (decode : List Char → Option StreamMessage) (tokenLimit : Nat)
    (warningRatio : ℚ) :
    ∀ (chunks : List (List Char)) (st : StreamState), '\n' ∉ st.buffer →
      chunks.foldl (feed decode tokenLimit warningRatio) st =
        feed decode tokenLimit warningRatio st chunks.flatten := by
  intro chunks
  induction chunks with
  | nil =>
    intro st h
    simpa using (feed_nil decode tokenLimit warningRatio h).symm
  | cons c cs ih =>
    intro st h
    simp only [List.foldl_cons, List.flatten_cons]
    rw [ih (feed decode tokenLimit warningRatio st c)
        (by simp only [feed]; exact splitCL_tail_no_nl _),
       feed_append]

/-- C7: round-trip over chunking — feeding any partition of a text chunk by
chunk through the stdout data handler and then flushing the remaining buffer
at close yields the same reassembled `fullResponse` and the same latched
truncation verdict as feeding the whole text as one chunk (the full stream
states are equal, so in particular these two observables are). -/
theorem stream_chunking_roundtrip (decode : List Char → Option StreamMessage)
    (tokenLimit : Nat) (warningRatio : ℚ) (chunks : List (List Char)) :
    (closeFlush decode tokenLimit warningRatio
        (chunks.foldl (feed decode tokenLimit warningRatio) initStream)).fullResponse =
      (closeFlush decode tokenLimit warningRatio
        (feed decode tokenLimit warningRatio initStream chunks.flatten)).fullResponse ∧
    (closeFlush decode tokenLimit warningRatio
        (chunks.foldl (feed decode tokenLimit warningRatio) initStream)).truncationError =
      (closeFlush decode tokenLimit warningRatio
        (feed decode tokenLimit warningRatio initStream chunks.flatten)).truncationError := by
  rw [feed_chunks decode tokenLimit warningRatio chunks initStream
      (by simp [initStream])]
  exact ⟨rfl, rfl⟩

/-! ## The force-push scenario -/

theorem lineDetection_git {line : List Char} {d : DetectedApproval}
    (h : lineDetection line = some d) (hc : d.category = .git) :
    gitAny (jsTrim line) = true ∧ d = buildApprovalInfo .git (jsTrim line) := by
  have h' : detect (jsTrim line) = some d := by
    simp only [lineDetection] at h
    split at h
    · exact absurd h (by simp)
    · split at h
      · exact absurd h (by simp)
      · split at h
        · exact absurd h (by simp)
        · split at h
          · exact absurd h (by simp)
          · exact h
  simp only [detect] at h'
  split at h'
  · rename_i hg
    refine ⟨hg, ?_⟩
    injection h' with he
    exact he.symm
  · split at h'
    · injection h' with he
      have hcat : d.category = Category.github := he ▸ rfl
      exact absurd (hcat.symm.trans hc) (by decide)
    · split at h'
      · injection h' with he
        have hcat : d.category = Category.npm := he ▸ rfl
        exact absurd (hcat.symm.trans hc) (by decide)
      · split at h'
        · injection h' with he
          have hcat : d.category = Category.deploy := he ▸ rfl
          exact absurd (hcat.symm.trans hc) (by decide)
        · exact absurd h' (by simp)

theorem lineDetection_of_trim {line : List Char}
    (h : jsTrim line = forcePushCmd) :
    lineDetection line = some forcePushDetection := by
  simp only [lineDetection, h]
  decide

theorem actionKey_ne_forcePush {d : DetectedApproval} (h : d.category ≠ .git) :
    actionKey d ≠ actionKey forcePushDetection := by
  intro he
  have h4 : (actionKey d).take 4 = (actionKey forcePushDetection).take 4 := by
    rw [he]
  cases hcat : d.category with
  | git => exact h hcat
  | github =>
    have e : actionKey d = "github".data ++ ":".data ++ d.action := by
      simp [actionKey, categoryName, hcat]
    rw [e] at h4
    have e4 : ("github".data ++ ":".data ++ d.action).take 4 = ['g','i','t','h'] := rfl
    rw [e4] at h4
    exact absurd h4 (by decide)
  | npm =>
    have e : actionKey d = "npm".data ++ ":".data ++ d.action := by
      simp [actionKey, categoryName, hcat]
    rw [e] at h4
    have e4 : ("npm".data ++ ":".data ++ d.action).take 4 = ['n','p','m',':'] := rfl
    rw [e4] at h4
    exact absurd h4 (by decide)
  | deploy =>
    have e : actionKey d = "deploy".data ++ ":".data ++ d.action := by
      simp [actionKey, categoryName, hcat]
    rw [e] at h4
    have e4 : ("deploy".data ++ ":".data ++ d.action).take 4 = ['d','e','p','l'] := rfl
    rw [e4] at h4
    exact absurd h4 (by decide)

theorem filterGit_firstOcc_seen (L : List DetectedApproval) :
    ∀ (seen : List (List Char)),
      (∀ d ∈ L, d.category = .git → d = forcePushDetection) →
      actionKey forcePushDetection ∈ seen →
      (firstOccurrencesBy actionKey seen L).filter
        (fun d => d.category == Category.git) = [] := by
  induction L with
  | nil => intro seen _ _; rfl
  | cons a as ih =>
    intro seen hA hseen
    have hA' : ∀ d ∈ as, d.category = .git → d = forcePushDetection :=
      fun d hd => hA d (List.mem_cons_of_mem _ hd)
    by_cases ha : actionKey a ∈ seen
    · rw [firstOccurrencesBy, if_pos ha]
      exact ih seen hA' hseen
    · rw [firstOccurrencesBy, if_neg ha]
      have hag : a.category ≠ Category.git := by
        intro hg
        rw [hA a (List.mem_cons_self _ _) hg] at ha
        exact ha hseen
      rw [List.filter_cons_of_neg (by simp [hag])]
      exact ih _ hA' (List.mem_cons_of_mem _ hseen)

theorem filterGit_firstOcc_pending (L : List DetectedApproval) :
    ∀ (seen : List (List Char)),
      (∀ d ∈ L, d.category = .git → d = forcePushDetection) →
      forcePushDetection ∈ L →
      actionKey forcePushDetection ∉ seen →
      (firstOccurrencesBy actionKey seen L).filter
        (fun d => d.category == Category.git) = [forcePushDetection] := by
  induction L with
  | nil => intro seen _ hB _; exact absurd hB (List.not_mem_nil _)
  | cons a as ih =>
    intro seen hA hB hseen
    have hA' : ∀ d ∈ as, d.category = .git → d = forcePushDetection :=
      fun d hd => hA d (List.mem_cons_of_mem _ hd)
    by_cases hag : a.category = Category.git
    · have ha0 : a = forcePushDetection := hA a (List.mem_cons_self _ _) hag
      subst ha0
      rw [firstOccurrencesBy, if_neg hseen]
      rw [List.filter_cons_of_pos (by decide)]
      rw [filterGit_firstOcc_seen as _ hA' (List.mem_cons_self _ _)]
    · have hane : a ≠ forcePushDetection := by
        intro hae
        rw [hae] at hag
        exact hag rfl
      have hB' : forcePushDetection ∈ as := by
        rcases List.mem_cons.mp hB with he | hm
        · exact absurd he.symm hane
        · exact hm
      by_cases ha : actionKey a ∈ seen
      · rw [firstOccurrencesBy, if_pos ha]
        exact ih seen hA' hB' hseen
      · rw [firstOccurrencesBy, if_neg ha]
        rw [List.filter_cons_of_neg (by simp [hag])]
        refine ih _ hA' hB' ?_
        intro hmem
        rcases List.mem_cons.mp hmem with he | hm
        · exact actionKey_ne_forcePush hag he.symm
        · exact hseen hm

/-- C8: if the response contains a line trimming to
`git push origin main --force` and no other line matches a git pattern, the
deduplicating scan yields exactly one git-category detection; it is marked
sensitive and its details name the branch `main` and carry the force-flag
marker. -/
theorem force_push_scenario (response : List Char)
    (hmem : ∃ line ∈ jsSplit response, jsTrim line = forcePushCmd)
    (honly : ∀ line ∈ jsSplit response, gitAny (jsTrim line) = true →
      jsTrim line = forcePushCmd) :
    (detectInResponse response).filter (fun d => d.category == Category.git) =
      [forcePushDetection] ∧
    forcePushDetection.category = .git ∧
    forcePushDetection.isSensitive = true ∧
    strContains "main".data forcePushDetection.details = true ∧
    strContains "⚠️ Force flag enabled".data forcePushDetection.details = true := by
  refine ⟨?_, rfl, by decide, by decide, by decide⟩
  have heq : detectInResponse response =
      firstOccurrencesBy actionKey [] (rawDetections response) :=
    detectLoop_eq_firstOcc [] (jsSplit response)
  rw [heq]
  apply filterGit_firstOcc_pending
  · intro d hd hdg
    simp only [rawDetections] at hd
    rcases List.mem_filterMap.mp hd with ⟨line, hline, hdet⟩
    obtain ⟨hg, hde⟩ := lineDetection_git hdet hdg
    rw [hde, honly line hline hg]
    rfl
  · rcases hmem with ⟨line, hline, htrim⟩
    simp only [rawDetections]
    exact List.mem_filterMap.mpr ⟨line, hline, lineDetection_of_trim htrim⟩
  · exact List.not_mem_nil _

theorem force_push_scenario_witness :
    (detectInResponse forcePushCmd).filter (fun d => d.category == Category.git) =
      [forcePushDetection] ∧
    forcePushDetection.isSensitive = true := by
  have hsplit : jsSplit forcePushCmd = [forcePushCmd] := by decide
  have h := force_push_scenario forcePushCmd
    ⟨forcePushCmd, by rw [hsplit]; exact List.mem_cons_self _ _, by decide⟩
    (by
      intro line hline _
      rw [hsplit] at hline
      have hl : line = forcePushCmd := List.mem_singleton.mp hline
      rw [hl]
      decide)
  exact ⟨h.1, h.2.2.1⟩

/-! ## Claim theorems for the approval gate: handleResponse -/

/-- C2: `handleResponse` succeeds exactly when a pending record with the id
exists and its requesting user matches: it then cancels the timeout, removes
the record and resolves with `approved`, returning `true`, and a repeated
call with the same id returns `false`; with an unknown id or a mismatched
user it returns `false` with no state change at all (record still pending,
timer still armed). -/
theorem handleResponse_spec (g : GateState) (id : Nat) (approved : Bool)
    (userId : String) (hnd : (pendingIds g).Nodup) :
    ((∃ p ∈ g.pendingApprovals, p.id = id ∧ p.userId = userId) →
      handleResponse id approved userId g =
        ({ g with
           armed := g.armed.filter (fun a => a.1 != id)
           pendingApprovals := g.pendingApprovals.filter (fun p => p.id != id)
           settled := g.settled ++ [(id, approved)] }, true) ∧
      (∀ (b : Bool) (u : String),
        (handleResponse id b u (handleResponse id approved userId g).1).2 = false)) ∧
    ((∀ p ∈ g.pendingApprovals, p.id = id → p.userId ≠ userId) →
      handleResponse id approved userId g = (g, false)) := by
  constructor
  · rintro ⟨p, hp, hpid, hpu⟩
    cases hf : g.pendingApprovals.find? (fun r => r.id == id) with
    | none =>
      have := List.find?_eq_none.mp hf p hp
      simp [hpid] at this
    | some q =>
      have hq : q ∈ g.pendingApprovals := List.mem_of_find?_eq_some hf
      have hqid : q.id = id := by simpa using List.find?_some hf
      have hqp : q = p :=
        List.inj_on_of_nodup_map hnd hq hp (by
          show q.id = p.id
          rw [hqid, hpid])
      have hqu : q.userId = userId := by rw [hqp, hpu]
      have hmain : handleResponse id approved userId g =
          ({ g with
             armed := g.armed.filter (fun a => a.1 != id)
             pendingApprovals := g.pendingApprovals.filter (fun p => p.id != id)
             settled := g.settled ++ [(id, approved)] }, true) := by
        simp [handleResponse, hf, hqu]
      refine ⟨hmain, ?_⟩
      intro b u
      rw [hmain]
      simp only [handleResponse]
      rw [List.find?_eq_none.mpr ?_]
      · intro x hx
        have hxne := (List.mem_filter.mp hx).2
        simpa using hxne
  · intro hmis
    cases hf : g.pendingApprovals.find? (fun r => r.id == id) with
    | none => simp [handleResponse, hf]
    | some q =>
      have hq := List.mem_of_find?_eq_some hf
      have hqid : q.id = id := by simpa using List.find?_some hf
      have hne : q.userId ≠ userId := hmis q hq hqid
      simp [handleResponse, hf, hne]

/-! ## Gate invariant machinery -/

theorem requestApproval_pendingApprovals
    {id : Nat} {u : String} {det : DetectedApproval} {repo : List Char}
    {now : Nat} {g : GateState} :
    (requestApproval id u det repo now g).pendingApprovals =
      g.pendingApprovals ++
        [{ id := id, userId := u, action := det.action, repo := repo
           details := det.details, command := det.command, createdAt := now }] := rfl

theorem requestApproval_armed
    {id : Nat} {u : String} {det : DetectedApproval} {repo : List Char}
    {now : Nat} {g : GateState} :
    (requestApproval id u det repo now g).armed = g.armed ++ [(id, u)] := rfl

theorem requestApproval_settled
    {id : Nat} {u : String} {det : DetectedApproval} {repo : List Char}
    {now : Nat} {g : GateState} :
    (requestApproval id u det repo now g).settled = g.settled := rfl

theorem requestApproval_updates
    {id : Nat} {u : String} {det : DetectedApproval} {repo : List Char}
    {now : Nat} {g : GateState} :
    (requestApproval id u det repo now g).updates =
      g.updates ++
        [{ type := .APPROVAL_REQUIRED, userId := u
           message := "Approval required for: ".data ++ det.action
           approvalId := some id }] := rfl

theorem fireTimeout_pendingApprovals {id : Nat} {u : String} {g : GateState} :
    (fireTimeout id u g).pendingApprovals =
      g.pendingApprovals.filter (fun p => p.id != id) := rfl

theorem fireTimeout_armed {id : Nat} {u : String} {g : GateState} :
    (fireTimeout id u g).armed = g.armed.filter (fun a => a != (id, u)) := rfl

theorem fireTimeout_settled {id : Nat} {u : String} {g : GateState} :
    (fireTimeout id u g).settled = g.settled ++ [(id, false)] := rfl

theorem fireTimeout_updates {id : Nat} {u : String} {g : GateState} :
    (fireTimeout id u g).updates =
      g.updates ++
        [{ type := .ERROR, userId := u, message := timeoutMessage }] := rfl

theorem cancelAllForUser_pendingApprovals {u : String} {g : GateState} :
    (cancelAllForUser u g).pendingApprovals =
      g.pendingApprovals.filter (fun p => p.userId != u) := rfl

theorem cancelAllForUser_armed {u : String} {g : GateState} :
    (cancelAllForUser u g).armed =
      g.armed.filter (fun a =>
        !((g.pendingApprovals.filter (fun p => p.userId == u)).map (·.id)).contains a.1) := rfl

theorem cancelAllForUser_settled {u : String} {g : GateState} :
    (cancelAllForUser u g).settled =
      g.settled ++
        (g.pendingApprovals.filter (fun p => p.userId == u)).map (fun p => (p.id, false)) := rfl

theorem cancelAllForUser_updates {u : String} {g : GateState} :
    (cancelAllForUser u g).updates = g.updates := rfl

theorem clearAll_pendingApprovals {g : GateState} :
    (clearAll g).pendingApprovals = [] := rfl

theorem clearAll_armed {g : GateState} :
    (clearAll g).armed =
      g.armed.filter (fun a => !(g.pendingApprovals.map (·.id)).contains a.1) := rfl

theorem clearAll_settled {g : GateState} :
    (clearAll g).settled =
      g.settled ++ g.pendingApprovals.map (fun p => (p.id, false)) := rfl

theorem clearAll_updates {g : GateState} : (clearAll g).updates = g.updates := rfl

theorem mem_pendingIds {g : GateState} {id : Nat} :
    id ∈ pendingIds g ↔ ∃ p ∈ g.pendingApprovals, p.id = id := by
  simp [pendingIds, List.mem_map]

theorem pending_id_unique {g : GateState} (h1 : (pendingIds g).Nodup)
    {p q : PendingApproval} (hp : p ∈ g.pendingApprovals)
    (hq : q ∈ g.pendingApprovals) (he : p.id = q.id) : p = q :=
  List.inj_on_of_nodup_map h1 hp hq he

theorem handleResponse_state_cases (id : Nat) (b : Bool) (u : String)
    (g : GateState) :
    (handleResponse id b u g).1 = g ∨
    ((∃ q ∈ g.pendingApprovals, q.id = id ∧ q.userId = u) ∧
      (handleResponse id b u g).1 =
        { g with
          armed := g.armed.filter (fun a => a.1 != id)
          pendingApprovals := g.pendingApprovals.filter (fun p => p.id != id)
          settled := g.settled ++ [(id, b)] }) := by
  cases hf : g.pendingApprovals.find? (fun p => p.id == id) with
  | none => left; simp [handleResponse, hf]
  | some q =>
    by_cases hu : q.userId = u
    · right
      refine ⟨⟨q, List.mem_of_find?_eq_some hf, by simpa using List.find?_some hf, hu⟩, ?_⟩
      simp [handleResponse, hf, hu]
    · left
      simp [handleResponse, hf, hu]

theorem initGate_inv : GateInv initGate := by
  refine ⟨List.nodup_nil, List.nodup_nil, ?_, ?_⟩
  · intro p hp; exact absurd hp (List.not_mem_nil p)
  · intro a
    constructor
    · intro ha; exact absurd ha (List.not_mem_nil a)
    · rintro ⟨p, hp, _⟩; exact absurd hp (List.not_mem_nil p)

theorem gateStep_inv {g g' : GateState} {e : GateEvent}
    (hs : GateStep g e g') (hi : GateInv g) : GateInv g' := by
  obtain ⟨h1, h2, h3, h4⟩ := hi
  cases hs with
  | request hp hsid =>
    rename_i id userId detection repoContext now
    refine ⟨?_, ?_, ?_, ?_⟩
    · have e1 : pendingIds (requestApproval id userId detection repoContext now g) =
          pendingIds g ++ [id] := by
        simp [pendingIds, requestApproval_pendingApprovals]
      rw [e1]
      exact h1.append (List.nodup_singleton id)
        (by intro a ha hb; rw [List.mem_singleton] at hb; subst hb; exact hp ha)
    · have e2 : settledIds (requestApproval id userId detection repoContext now g) =
          settledIds g := by
        simp [settledIds, requestApproval_settled]
      rw [e2]; exact h2
    · intro p hp'
      have e2 : settledIds (requestApproval id userId detection repoContext now g) =
          settledIds g := by
        simp [settledIds, requestApproval_settled]
      rw [e2]
      rw [requestApproval_pendingApprovals] at hp'
      rcases List.mem_append.mp hp' with hin | hin
      · exact h3 p hin
      · rw [List.mem_singleton] at hin
        subst hin
        exact hsid
    · intro a
      rw [requestApproval_armed, requestApproval_pendingApprovals]
      constructor
      · intro ha
        rcases List.mem_append.mp ha with hin | hin
        · obtain ⟨p, hp', hpid, hpu⟩ := (h4 a).mp hin
          exact ⟨p, List.mem_append_left _ hp', hpid, hpu⟩
        · rw [List.mem_singleton] at hin
          subst hin
          exact ⟨_, List.mem_append_right _ (List.mem_singleton_self _), rfl, rfl⟩
      · rintro ⟨p, hp', hpid, hpu⟩
        rcases List.mem_append.mp hp' with hin | hin
        · exact List.mem_append_left _ ((h4 a).mpr ⟨p, hin, hpid, hpu⟩)
        · rw [List.mem_singleton] at hin
          subst hin
          have ha : a = (id, userId) := by
            rcases a with ⟨a1, a2⟩
            simp only at hpid hpu
            rw [← hpid, ← hpu]
          rw [ha]
          exact List.mem_append_right _ (List.mem_singleton_self _)
  | respond =>
    rename_i id approved userId
    rcases handleResponse_state_cases id approved userId g with hcase | ⟨⟨q, hq, hqid, hqu⟩, hcase⟩
    · rw [hcase]; exact ⟨h1, h2, h3, h4⟩
    · rw [hcase]
      have hqset : id ∉ settledIds g := hqid ▸ h3 q hq
      refine ⟨?_, ?_, ?_, ?_⟩
      · exact ((List.filter_sublist _).map _).nodup h1
      · have e2 : settledIds
            { g with
              armed := g.armed.filter (fun a => a.1 != id)
              pendingApprovals := g.pendingApprovals.filter (fun p => p.id != id)
              settled := g.settled ++ [(id, approved)] } =
            settledIds g ++ [id] := by
          simp [settledIds]
        rw [e2]
        exact h2.append (List.nodup_singleton id)
          (by intro a ha hb; rw [List.mem_singleton] at hb; subst hb; exact hqset ha)
      · intro p hp'
        obtain ⟨hpin, hpne⟩ := List.mem_filter.mp hp'
        have hpne' : p.id ≠ id := by simpa using hpne
        simp only [settledIds, List.map_append]
        intro hmem
        rcases List.mem_append.mp hmem with hin | hin
        · exact h3 p hpin hin
        · simp at hin
          exact hpne' hin
      · intro a
        constructor
        · intro ha
          obtain ⟨hain, hane⟩ := List.mem_filter.mp ha
          have hane' : a.1 ≠ id := by simpa using hane
          obtain ⟨p, hp', hpid, hpu⟩ := (h4 a).mp hain
          refine ⟨p, ?_, hpid, hpu⟩
          exact List.mem_filter.mpr ⟨hp', by simpa using hpid ▸ hane'⟩
        · rintro ⟨p, hp', hpid, hpu⟩
          obtain ⟨hpin, hpne⟩ := List.mem_filter.mp hp'
          have hpne' : p.id ≠ id := by simpa using hpne
          exact List.mem_filter.mpr
            ⟨(h4 a).mpr ⟨p, hpin, hpid, hpu⟩, by simpa using hpid ▸ hpne'⟩
  | fire hfa =>
    rename_i id userId
    obtain ⟨q, hq, hqid0, hqu0⟩ := (h4 _).mp hfa
    have hqid : q.id = id := hqid0
    have hqu : q.userId = userId := hqu0
    have hqset : id ∉ settledIds g := hqid ▸ h3 q hq
    refine ⟨?_, ?_, ?_, ?_⟩
    · have e1 : pendingIds (fireTimeout id userId g) =
          (g.pendingApprovals.filter (fun p => p.id != id)).map (·.id) := by
        simp [pendingIds, fireTimeout_pendingApprovals]
      rw [e1]
      exact ((List.filter_sublist _).map _).nodup h1
    · have e2 : settledIds (fireTimeout id userId g) = settledIds g ++ [id] := by
        simp [settledIds, fireTimeout_settled]
      rw [e2]
      exact h2.append (List.nodup_singleton id)
        (by intro a ha hb; rw [List.mem_singleton] at hb; subst hb; exact hqset ha)
    · intro p hp'
      rw [fireTimeout_pendingApprovals] at hp'
      obtain ⟨hpin, hpne⟩ := List.mem_filter.mp hp'
      have hpne' : p.id ≠ id := by simpa using hpne
      have e2 : settledIds (fireTimeout id userId g) = settledIds g ++ [id] := by
        simp [settledIds, fireTimeout_settled]
      rw [e2]
      intro hmem
      rcases List.mem_append.mp hmem with hin | hin
      · exact h3 p hpin hin
      · rw [List.mem_singleton] at hin
        exact hpne' hin
    · intro a
      rw [fireTimeout_armed, fireTimeout_pendingApprovals]
      constructor
      · intro ha
        obtain ⟨hain, hane⟩ := List.mem_filter.mp ha
        have hane' : a ≠ (id, userId) := by simpa using hane
        obtain ⟨p, hp', hpid, hpu⟩ := (h4 a).mp hain
        have hpne : p.id ≠ id := by
          intro hpe
          have hpq : p = q := pending_id_unique h1 hp' hq (hpe.trans hqid.symm)
          apply hane'
          rcases a with ⟨a1, a2⟩
          simp only at hpid hpu
          rw [← hpid, ← hpu, hpq, hqu]
          rw [hpq] at hpe
          rw [hpe]
        refine ⟨p, List.mem_filter.mpr ⟨hp', by simpa using hpne⟩, hpid, hpu⟩
      · rintro ⟨p, hp', hpid, hpu⟩
        obtain ⟨hpin, hpne⟩ := List.mem_filter.mp hp'
        have hpne' : p.id ≠ id := by simpa using hpne
        refine List.mem_filter.mpr ⟨(h4 a).mpr ⟨p, hpin, hpid, hpu⟩, ?_⟩
        have : a.1 ≠ id := hpid ▸ hpne'
        simp only [bne_iff_ne, ne_eq, decide_not]
        intro hae
        rw [hae] at this
        exact this rfl
  | cancelUser =>
    rename_i userId
    refine ⟨?_, ?_, ?_, ?_⟩
    · have e1 : pendingIds (cancelAllForUser userId g) =
          (g.pendingApprovals.filter (fun p => p.userId != userId)).map (·.id) := by
        simp [pendingIds, cancelAllForUser_pendingApprovals]
      rw [e1]
      exact ((List.filter_sublist _).map _).nodup h1
    · have e2 : settledIds (cancelAllForUser userId g) =
          settledIds g ++
            (g.pendingApprovals.filter (fun p => p.userId == userId)).map (·.id) := by
        simp [settledIds, cancelAllForUser_settled]
      rw [e2, List.nodup_append]
      refine ⟨h2, ((List.filter_sublist _).map _).nodup h1, ?_⟩
      intro x hx hx'
      obtain ⟨p, hp', hpe⟩ := List.mem_map.mp hx'
      obtain ⟨hpin, _⟩ := List.mem_filter.mp hp'
      exact h3 p hpin (hpe ▸ hx)
    · intro p hp'
      rw [cancelAllForUser_pendingApprovals] at hp'
      obtain ⟨hpin, hpne⟩ := List.mem_filter.mp hp'
      have hpu : p.userId ≠ userId := by simpa using hpne
      have e2 : settledIds (cancelAllForUser userId g) =
          settledIds g ++
            (g.pendingApprovals.filter (fun p => p.userId == userId)).map (·.id) := by
        simp [settledIds, cancelAllForUser_settled]
      rw [e2]
      intro hmem
      rcases List.mem_append.mp hmem with hin | hin
      · exact h3 p hpin hin
      · obtain ⟨q, hq', hqe⟩ := List.mem_map.mp hin
        obtain ⟨hqin, hque⟩ := List.mem_filter.mp hq'
        have hqu : q.userId = userId := by simpa using hque
        have : p = q := pending_id_unique h1 hpin hqin hqe.symm
        rw [this] at hpu
        exact hpu hqu
    · intro a
      rw [cancelAllForUser_armed, cancelAllForUser_pendingApprovals]
      constructor
      · intro ha
        obtain ⟨hain, hane⟩ := List.mem_filter.mp ha
        have hnotc : a.1 ∉ (g.pendingApprovals.filter
            (fun p => p.userId == userId)).map (·.id) := by
          simpa using hane
        obtain ⟨p, hp', hpid, hpu⟩ := (h4 a).mp hain
        have hpne : p.userId ≠ userId := by
          intro hpe
          exact hnotc (List.mem_map.mpr
            ⟨p, List.mem_filter.mpr ⟨hp', by simpa using hpe⟩, hpid⟩)
        exact ⟨p, List.mem_filter.mpr ⟨hp', by simpa using hpne⟩, hpid, hpu⟩
      · rintro ⟨p, hp', hpid, hpu⟩
        obtain ⟨hpin, hpne⟩ := List.mem_filter.mp hp'
        have hpu' : p.userId ≠ userId := by simpa using hpne
        refine List.mem_filter.mpr ⟨(h4 a).mpr ⟨p, hpin, hpid, hpu⟩, ?_⟩
        have hnotc : a.1 ∉ (g.pendingApprovals.filter
            (fun p => p.userId == userId)).map (·.id) := by
          intro hmem
          obtain ⟨q, hq', hqe⟩ := List.mem_map.mp hmem
          obtain ⟨hqin, hque⟩ := List.mem_filter.mp hq'
          have hqu : q.userId = userId := by simpa using hque
          have hpq : p = q := pending_id_unique h1 hpin hqin (hpid.trans hqe.symm)
          rw [hpq] at hpu'
          exact hpu' hqu
        simpa using hnotc
  | clearEvt =>
    refine ⟨?_, ?_, ?_, ?_⟩
    · have e1 : pendingIds (clearAll g) = [] := by
        simp [pendingIds, clearAll_pendingApprovals]
      rw [e1]
      exact List.nodup_nil
    · have e2 : settledIds (clearAll g) =
          settledIds g ++ g.pendingApprovals.map (·.id) := by
        simp [settledIds, clearAll_settled]
      rw [e2, List.nodup_append]
      refine ⟨h2, h1, ?_⟩
      intro x hx hx'
      obtain ⟨p, hp', hpe⟩ := List.mem_map.mp hx'
      exact h3 p hp' (hpe ▸ hx)
    · intro p hp'
      rw [clearAll_pendingApprovals] at hp'
      exact absurd hp' (List.not_mem_nil p)
    · intro a
      rw [clearAll_armed, clearAll_pendingApprovals]
      constructor
      · intro ha
        obtain ⟨hain, hane⟩ := List.mem_filter.mp ha
        have hnotc : a.1 ∉ g.pendingApprovals.map (·.id) := by simpa using hane
        obtain ⟨p, hp', hpid, _⟩ := (h4 a).mp hain
        exact absurd (List.mem_map.mpr ⟨p, hp', hpid⟩) hnotc
      · rintro ⟨p, hp', _⟩
        exact absurd hp' (List.not_mem_nil p)

theorem handleResponse_spec_witness :
    (handleResponse 5 true "alice"
        { pendingApprovals := [⟨5, "alice", [], [], [], [], 0⟩]
          armed := [(5, "alice")], settled := [], updates := [] }).2 = true ∧
    (handleResponse 5 false "alice"
        (handleResponse 5 true "alice"
          { pendingApprovals := [⟨5, "alice", [], [], [], [], 0⟩]
            armed := [(5, "alice")], settled := [], updates := [] }).1).2 = false ∧
    handleResponse 5 true "bob"
        { pendingApprovals := [⟨5, "alice", [], [], [], [], 0⟩]
          armed := [(5, "alice")], settled := [], updates := [] } =
      ({ pendingApprovals := [⟨5, "alice", [], [], [], [], 0⟩]
         armed := [(5, "alice")], settled := [], updates := [] }, false) := by
  have h := handleResponse_spec
    { pendingApprovals := [⟨5, "alice", [], [], [], [], 0⟩]
      armed := [(5, "alice")], settled := [], updates := [] } 5 true "alice"
    (by decide)
  have h1 := h.1 ⟨⟨5, "alice", [], [], [], [], 0⟩, by simp, rfl, rfl⟩
  have h2 := handleResponse_spec
    { pendingApprovals := [⟨5, "alice", [], [], [], [], 0⟩]
      armed := [(5, "alice")], settled := [], updates := [] } 5 true "bob"
    (by decide)
  refine ⟨by rw [h1.1], h1.2 false "alice", h2.2 ?_⟩
  intro p hp hid
  simp at hp
  rw [hp]
  decide

/-! ## Gate trace lemmas -/

theorem gateTrace_inv {g g' : GateState} {es : List GateEvent}
    (ht : GateTrace g es g') (hi : GateInv g) : GateInv g' := by
  induction ht with
  | nil => exact hi
  | cons hs _ ih => exact ih (gateStep_inv hs hi)

theorem step_settled_ext {g g' : GateState} {e : GateEvent}
    (hs : GateStep g e g') : ∃ t, g'.settled = g.settled ++ t := by
  cases hs with
  | request _ _ => exact ⟨[], by rw [requestApproval_settled, List.append_nil]⟩
  | respond =>
    rename_i id approved userId
    rcases handleResponse_state_cases id approved userId g with hc | ⟨_, hc⟩
    · exact ⟨[], by rw [hc, List.append_nil]⟩
    · exact ⟨[(id, approved)], by rw [hc]⟩
  | fire _ => exact ⟨_, fireTimeout_settled⟩
  | cancelUser => exact ⟨_, cancelAllForUser_settled⟩
  | clearEvt => exact ⟨_, clearAll_settled⟩

theorem step_updates_ext {g g' : GateState} {e : GateEvent}
    (hs : GateStep g e g') : ∃ t, g'.updates = g.updates ++ t := by
  cases hs with
  | request _ _ => exact ⟨_, requestApproval_updates⟩
  | respond =>
    rename_i id approved userId
    rcases handleResponse_state_cases id approved userId g with hc | ⟨_, hc⟩
    · exact ⟨[], by rw [hc, List.append_nil]⟩
    · exact ⟨[], by rw [hc, List.append_nil]⟩
  | fire _ => exact ⟨_, fireTimeout_updates⟩
  | cancelUser => exact ⟨[], by rw [cancelAllForUser_updates, List.append_nil]⟩
  | clearEvt => exact ⟨[], by rw [clearAll_updates, List.append_nil]⟩

theorem trace_settled_mono {g g' : GateState} {es : List GateEvent}
    (ht : GateTrace g es g') : ∀ x ∈ g.settled, x ∈ g'.settled := by
  induction ht with
  | nil => exact fun _ hx => hx
  | cons hs _ ih =>
    intro x hx
    obtain ⟨t, he⟩ := step_settled_ext hs
    exact ih x (by rw [he]; exact List.mem_append_left _ hx)

theorem trace_updates_mono {g g' : GateState} {es : List GateEvent}
    (ht : GateTrace g es g') : ∀ x ∈ g.updates, x ∈ g'.updates := by
  induction ht with
  | nil => exact fun _ hx => hx
  | cons hs _ ih =>
    intro x hx
    obtain ⟨t, he⟩ := step_updates_ext hs
    exact ih x (by rw [he]; exact List.mem_append_left _ hx)

theorem step_pool_mono {g g' : GateState} {e : GateEvent}
    (hs : GateStep g e g') :
    ∀ id, id ∈ pendingIds g ∨ id ∈ settledIds g →
      id ∈ pendingIds g' ∨ id ∈ settledIds g' := by
  cases hs with
  | request hp hsid =>
    rename_i id0 u det repo now
    intro id h
    rcases h with h | h
    · left
      have e1 : pendingIds (requestApproval id0 u det repo now g) =
          pendingIds g ++ [id0] := by
        simp [pendingIds, requestApproval_pendingApprovals]
      rw [e1]
      exact List.mem_append_left _ h
    · right
      have e2 : settledIds (requestApproval id0 u det repo now g) =
          settledIds g := by
        simp [settledIds, requestApproval_settled]
      rw [e2]
      exact h
  | respond =>
    rename_i id0 approved u
    intro id h
    rcases handleResponse_state_cases id0 approved u g with hc | ⟨_, hc⟩
    · rw [hc]; exact h
    · rw [hc]
      rcases h with h | h
      · by_cases he : id = id0
        · right
          subst he
          simp only [settledIds, List.map_append]
          exact List.mem_append_right _ (by simp)
        · left
          obtain ⟨p, hp', hpid⟩ := mem_pendingIds.mp h
          refine mem_pendingIds.mpr ⟨p, List.mem_filter.mpr ⟨hp', ?_⟩, hpid⟩
          simp only [bne_iff_ne, ne_eq, decide_not, Bool.not_eq_eq_eq_not,
            Bool.not_false, decide_eq_true_eq]
          rw [hpid]
          exact he
      · right
        simp only [settledIds, List.map_append]
        exact List.mem_append_left _ h
  | fire hfa =>
    rename_i id0 u0
    intro id h
    rcases h with h | h
    · by_cases he : id = id0
      · right
        subst he
        simp only [settledIds, fireTimeout_settled, List.map_append]
        exact List.mem_append_right _ (by simp)
      · left
        obtain ⟨p, hp', hpid⟩ := mem_pendingIds.mp h
        refine mem_pendingIds.mpr ⟨p, ?_, hpid⟩
        rw [fireTimeout_pendingApprovals]
        refine List.mem_filter.mpr ⟨hp', ?_⟩
        simp only [bne_iff_ne, ne_eq, decide_not, Bool.not_eq_eq_eq_not,
          Bool.not_false, decide_eq_true_eq]
        rw [hpid]
        exact he
    · right
      simp only [settledIds, fireTimeout_settled, List.map_append]
      exact List.mem_append_left _ h
  | cancelUser =>
    rename_i u0
    intro id h
    rcases h with h | h
    · obtain ⟨p, hp', hpid⟩ := mem_pendingIds.mp h
      by_cases hu : p.userId = u0
      · right
        simp only [settledIds, cancelAllForUser_settled, List.map_append]
        refine List.mem_append_right _ ?_
        simp only [List.map_map]
        refine List.mem_map.mpr ⟨p, List.mem_filter.mpr ⟨hp', by simpa using hu⟩, ?_⟩
        simpa using hpid
      · left
        refine mem_pendingIds.mpr ⟨p, ?_, hpid⟩
        rw [cancelAllForUser_pendingApprovals]
        exact List.mem_filter.mpr ⟨hp', by simpa using hu⟩
    · right
      simp only [settledIds, cancelAllForUser_settled, List.map_append]
      exact List.mem_append_left _ h
  | clearEvt =>
    intro id h
    rcases h with h | h
    · obtain ⟨p, hp', hpid⟩ := mem_pendingIds.mp h
      right
      simp only [settledIds, clearAll_settled, List.map_append]
      refine List.mem_append_right _ ?_
      simp only [List.map_map]
      exact List.mem_map.mpr ⟨p, hp', by simpa using hpid⟩
    · right
      simp only [settledIds, clearAll_settled, List.map_append]
      exact List.mem_append_left _ h

theorem trace_pool_mono {g g' : GateState} {es : List GateEvent}
    (ht : GateTrace g es g') :
    ∀ id, id ∈ pendingIds g ∨ id ∈ settledIds g →
      id ∈ pendingIds g' ∨ id ∈ settledIds g' := by
  induction ht with
  | nil => exact fun _ h => h
  | cons hs _ ih => exact fun id h => ih id (step_pool_mono hs id h)

theorem settled_ext_mem {g g' : GateState} {x : Nat × Bool}
    (h : ∃ t, g'.settled = g.settled ++ t) (hx : x ∈ g.settled) :
    x ∈ g'.settled := by
  obtain ⟨t, he⟩ := h
  rw [he]
  exact List.mem_append_left _ hx

theorem settledIds_ext_mem {g g' : GateState} {x : Nat}
    (h : ∃ t, g'.settled = g.settled ++ t) (hx : x ∈ settledIds g) :
    x ∈ settledIds g' := by
  obtain ⟨t, he⟩ := h
  simp only [settledIds, he, List.map_append]
  exact List.mem_append_left _ hx

theorem mem_settledIds_fire {g : GateState} {id : Nat} {u : String} :
    id ∈ settledIds (fireTimeout id u g) := by
  simp only [settledIds, fireTimeout_settled, List.map_append]
  exact List.mem_append_right _ (by simp)

theorem fire_settled_mem {g : GateState} {id : Nat} {u : String} :
    (id, false) ∈ (fireTimeout id u g).settled := by
  rw [fireTimeout_settled]
  exact List.mem_append_right _ (by simp)

theorem fire_update_mem {g : GateState} {id : Nat} {u : String} :
    ({ type := .ERROR, userId := u, message := timeoutMessage } :
      OrchestratorUpdate) ∈ (fireTimeout id u g).updates := by
  rw [fireTimeout_updates]
  exact List.mem_append_right _ (by simp)

theorem trace_requested_pool {g g' : GateState} {es : List GateEvent}
    (ht : GateTrace g es g') :
    ∀ id ∈ requestedIds es, id ∈ pendingIds g' ∨ id ∈ settledIds g' := by
  induction ht with
  | nil =>
    intro id h
    exact absurd h (List.not_mem_nil id)
  | cons hs ht' ih =>
    intro id h
    cases hs with
    | request hp hsid =>
      rename_i id0 u det repo now
      simp only [requestedIds] at h
      rcases List.mem_cons.mp h with rfl | h
      · refine trace_pool_mono ht' id (Or.inl ?_)
        simp [pendingIds, requestApproval_pendingApprovals]
      · exact ih id h
    | respond => exact ih id (by simpa [requestedIds] using h)
    | fire _ => exact ih id (by simpa [requestedIds] using h)
    | cancelUser => exact ih id (by simpa [requestedIds] using h)
    | clearEvt => exact ih id (by simpa [requestedIds] using h)

theorem no_fire_after_settled {id : Nat} :
    ∀ {g g' : GateState} {es : List GateEvent}, GateTrace g es g' →
      GateInv g → id ∈ settledIds g → fireCount id es = 0 := by
  intro g g' es ht
  induction ht with
  | nil => intro _ _; rfl
  | cons hs ht' ih =>
    intro hi hset
    have hi' := gateStep_inv hs hi
    have hset' := settledIds_ext_mem (step_settled_ext hs) hset
    cases hs with
    | fire hfa =>
      rename_i id0 u0
      obtain ⟨q, hq, hqid0, _⟩ := (hi.2.2.2 _).mp hfa
      have hqid : q.id = id0 := hqid0
      have hne : ¬(id0 = id) := by
        intro he0
        exact hi.2.2.1 q hq (by rw [hqid, he0]; exact hset)
      simp only [fireCount, if_neg hne, Nat.zero_add]
      exact ih hi' hset'
    | request _ _ => simp only [fireCount]; exact ih hi' hset'
    | respond => simp only [fireCount]; exact ih hi' hset'
    | cancelUser => simp only [fireCount]; exact ih hi' hset'
    | clearEvt => simp only [fireCount]; exact ih hi' hset'

theorem fireCount_le_one {id : Nat} :
    ∀ {g g' : GateState} {es : List GateEvent}, GateTrace g es g' →
      GateInv g → fireCount id es ≤ 1 := by
  intro g g' es ht
  induction ht with
  | nil => intro _; exact Nat.zero_le 1
  | cons hs ht' ih =>
    intro hi
    have hi' := gateStep_inv hs hi
    cases hs with
    | fire hfa =>
      rename_i id0 u0
      by_cases he : id0 = id
      · subst he
        have h0 := no_fire_after_settled ht' hi' mem_settledIds_fire
        simp [fireCount, h0]
      · simp only [fireCount, if_neg he, Nat.zero_add]
        exact ih hi'
    | request _ _ => simp only [fireCount]; exact ih hi'
    | respond => simp only [fireCount]; exact ih hi'
    | cancelUser => simp only [fireCount]; exact ih hi'
    | clearEvt => simp only [fireCount]; exact ih hi'

theorem approvalRequired_msg_ne (a : List Char) :
    ("Approval required for: ".data ++ a) ≠ timeoutMessage := by
  intro h
  have h1 : ("Approval required for: ".data ++ a).head? = some 'A' := rfl
  rw [h] at h1
  exact absurd h1 (by decide)

theorem timeoutUpdateCount_append (us vs : List OrchestratorUpdate) :
    timeoutUpdateCount (us ++ vs) =
      timeoutUpdateCount us + timeoutUpdateCount vs := by
  simp [timeoutUpdateCount, List.filter_append]

theorem timeoutUpdateCount_single_ne (x : OrchestratorUpdate)
    (h : x.message ≠ timeoutMessage) : timeoutUpdateCount [x] = 0 := by
  simp [timeoutUpdateCount, List.filter, beq_eq_false_iff_ne.mpr h]

theorem timeoutUpdateCount_single_eq (x : OrchestratorUpdate)
    (h : x.message = timeoutMessage) : timeoutUpdateCount [x] = 1 := by
  simp [timeoutUpdateCount, List.filter, h]

theorem tc_requestApproval {id : Nat} {u : String} {det : DetectedApproval}
    {repo : List Char} {now : Nat} {g : GateState} :
    timeoutUpdateCount (requestApproval id u det repo now g).updates =
      timeoutUpdateCount g.updates := by
  rw [requestApproval_updates, timeoutUpdateCount_append,
    timeoutUpdateCount_single_ne _ (approvalRequired_msg_ne det.action),
    Nat.add_zero]

theorem tc_handleResponse {id : Nat} {b : Bool} {u : String} {g : GateState} :
    timeoutUpdateCount (handleResponse id b u g).1.updates =
      timeoutUpdateCount g.updates := by
  rcases handleResponse_state_cases id b u g with hc | ⟨_, hc⟩ <;> rw [hc]

theorem tc_fireTimeout {id : Nat} {u : String} {g : GateState} :
    timeoutUpdateCount (fireTimeout id u g).updates =
      timeoutUpdateCount g.updates + 1 := by
  rw [fireTimeout_updates, timeoutUpdateCount_append,
    timeoutUpdateCount_single_eq _ rfl]

theorem trace_timeoutCount {g g' : GateState} {es : List GateEvent}
    (ht : GateTrace g es g') :
    timeoutUpdateCount g'.updates = timeoutUpdateCount g.updates + totalFires es := by
  induction ht with
  | nil => simp [totalFires]
  | cons hs ht' ih =>
    cases hs with
    | request hp hsid =>
      rename_i id0 u det repo now
      rw [ih, tc_requestApproval]
      simp only [totalFires]
    | respond =>
      rw [ih, tc_handleResponse]
      simp only [totalFires]
    | fire _ =>
      rw [ih, tc_fireTimeout]
      simp only [totalFires]
      omega
    | cancelUser =>
      rw [ih, cancelAllForUser_updates]
      simp only [totalFires]
    | clearEvt =>
      rw [ih, clearAll_updates]
      simp only [totalFires]

theorem fire_effect {id : Nat} {u : String} :
    ∀ {g g' : GateState} {es : List GateEvent}, GateTrace g es g' →
      GateInv g → GateEvent.fire id u ∈ es →
      (id, false) ∈ g'.settled ∧ id ∉ pendingIds g' ∧
      ({ type := .ERROR, userId := u, message := timeoutMessage } :
        OrchestratorUpdate) ∈ g'.updates := by
  intro g g' es ht
  induction ht with
  | nil =>
    intro _ h
    exact absurd h (List.not_mem_nil _)
  | cons hs ht' ih =>
    intro hi hmem
    have hi' := gateStep_inv hs hi
    rcases List.mem_cons.mp hmem with he | hmem'
    · subst he
      cases hs with
      | fire hfa =>
        have hs1 := trace_settled_mono ht' _ fire_settled_mem
        have hu1 := trace_updates_mono ht' _ fire_update_mem
        refine ⟨hs1, ?_, hu1⟩
        have hif := gateTrace_inv ht' hi'
        intro hping
        obtain ⟨p, hp', hpid⟩ := mem_pendingIds.mp hping
        refine hif.2.2.1 p hp' ?_
        rw [hpid]
        exact List.mem_map.mpr ⟨(id, false), hs1, rfl⟩
    · exact ih hi' hmem'

/-! ## Claim theorems for the gate invariants -/

/-- C1: along every trace of the gate from a fresh state, each approval id is
settled at most once (the settlement log has no duplicate ids), and every
requested id is pending exactly as long as it is unsettled: settlement by
response, timeout-firing, per-user cancel or clearAll removes the record, so
no second path can resolve it again. -/
theorem gate_settled_exactly_once {es : List GateEvent} {g : GateState}
    (ht : GateTrace initGate es g) :
    (settledIds g).Nodup ∧
    (∀ id ∈ requestedIds es, (id ∈ pendingIds g ↔ id ∉ settledIds g)) := by
  have hi := gateTrace_inv ht initGate_inv
  refine ⟨hi.2.1, ?_⟩
  intro id hid
  constructor
  · intro hp hset
    obtain ⟨p, hp', hpid⟩ := mem_pendingIds.mp hp
    exact hi.2.2.1 p hp' (by rw [hpid]; exact hset)
  · intro hns
    rcases trace_requested_pool ht id hid with h | h
    · exact h
    · exact absurd h hns

theorem gate_settled_exactly_once_witness :
    (settledIds (fireTimeout 7 "alice"
        (requestApproval 7 "alice" sampleDetection [] 0 initGate))).Nodup ∧
    (∀ id ∈ requestedIds [GateEvent.request 7 "alice" sampleDetection [] 0,
        GateEvent.fire 7 "alice"],
      (id ∈ pendingIds (fireTimeout 7 "alice"
          (requestApproval 7 "alice" sampleDetection [] 0 initGate)) ↔
        id ∉ settledIds (fireTimeout 7 "alice"
          (requestApproval 7 "alice" sampleDetection [] 0 initGate)))) :=
  gate_settled_exactly_once
    (GateTrace.cons (GateStep.request (by decide) (by decide))
      (GateTrace.cons (GateStep.fire (by decide)) GateTrace.nil))

/-- C3: the timeout constant is the fixed 30-minute window; along every trace
from a fresh gate each armed timer fires at most once, a firing resolves the
approval to `false`, leaves the record removed from the pending set, and
emits the timeout notification to the requesting user; and the number of
timeout notifications in the update log equals the number of firings, so
each firing emits exactly one notification. -/
theorem approval_timeout_spec {es : List GateEvent} {g : GateState}
    (ht : GateTrace initGate es g) :
    APPROVAL_TIMEOUT_MS = 30 * 60 * 1000 ∧
    (∀ id, fireCount id es ≤ 1) ∧
    (∀ id u, GateEvent.fire id u ∈ es →
      (id, false) ∈ g.settled ∧ id ∉ pendingIds g ∧
      ({ type := .ERROR, userId := u, message := timeoutMessage } :
        OrchestratorUpdate) ∈ g.updates) ∧
    timeoutUpdateCount g.updates = totalFires es := by
  refine ⟨rfl, ?_, ?_, ?_⟩
  · intro id
    exact fireCount_le_one ht initGate_inv
  · intro id u hmem
    exact fire_effect ht initGate_inv hmem
  · have h := trace_timeoutCount ht
    simpa [initGate, timeoutUpdateCount] using h

theorem approval_timeout_spec_witness :
    fireCount 7 [GateEvent.request 7 "alice" sampleDetection [] 0,
      GateEvent.fire 7 "alice"] ≤ 1 ∧
    (7, false) ∈ (fireTimeout 7 "alice"
        (requestApproval 7 "alice" sampleDetection [] 0 initGate)).settled ∧
    timeoutUpdateCount (fireTimeout 7 "alice"
        (requestApproval 7 "alice" sampleDetection [] 0 initGate)).updates =
      totalFires [GateEvent.request 7 "alice" sampleDetection [] 0,
        GateEvent.fire 7 "alice"] := by
  have h := approval_timeout_spec
    (GateTrace.cons (GateStep.request (by decide) (by decide))
      (GateTrace.cons (GateStep.fire (by decide) :
        GateStep (requestApproval 7 "alice" sampleDetection [] 0 initGate)
          (GateEvent.fire 7 "alice")
          (fireTimeout 7 "alice"
            (requestApproval 7 "alice" sampleDetection [] 0 initGate)))
        GateTrace.nil))
  exact ⟨h.2.1 7, (h.2.2.1 7 "alice" (by decide)).1, h.2.2.2⟩

end Yuan
